import Mathlib

/-!
Verification development for the social-feed analysis service.

The definitions below are a shallow embedding of the Python source:

* `app/domain/services/sentiment_service.py` (analytic engine),
* `app/application/use_cases/ingest_batch_fastpath.py` (bulk ingestion fast path),
* `app/infrastructure/db/repositories/message_repository.py` (outbox repository),
* `app/infrastructure/messaging/consumers/outbox_publisher.py` (outbox dispatcher),
* `app/api/v1/routes/analyze_feed.py` and `app/application/dtos/analysis.py` (HTTP surface).

Modelling conventions:

* Python floats are modelled as exact rationals (`ℚ`); the decimal literals of
  the source (`1.5`, `0.1`, `9.42`, …) are exact in `ℚ`.
* Python `datetime` values are modelled as integer timestamps (seconds); all
  timestamps flow through the same timezone conversion in the source, which is
  an order- and difference-preserving shift, so integer arithmetic on seconds
  is a faithful model of comparison, `max`, and `timedelta` arithmetic.
* Library calls that are external to the repository are abstracted as function
  parameters: `normF` (the `unicodedata`-based `normalize_for_matching`),
  `tokF` (the `TOKEN_RE` regex tokenizer), `hashF` (the `sha256`-derived
  follower count), `goldenFactor` (the float value of `1 + 1/φ`) and `logR`
  (the float value of `log10 n / log10 8`).  No claim proved here depends on
  the concrete values of these parameters.
* Mutable arrays indexed by position are modelled as functions `ℕ → ℕ`.
* Exceptions are modelled with `Option` (`none` = the call raises).
-/

namespace Feed

/-! ### Lexicons (`sentiment_service.py`, lines 16-20) -/

def POSITIVE_WORDS : List String := ["adorei", "gostei", "bom", "boa", "excelente", "otimo"]

def NEGATIVE_WORDS : List String := ["ruim", "terrivel", "pessimo", "horrivel", "lento"]

def INTENSIFIERS : List String := ["muito", "super"]

def NEGATIONS : List String := ["nao"]

def META_PHRASES : List String := ["teste tecnico mbras"]

def isPositive (t : String) : Bool := t ∈ POSITIVE_WORDS

def isNegative (t : String) : Bool := t ∈ NEGATIVE_WORDS

def isIntensifier (t : String) : Bool := t ∈ INTENSIFIERS

def isNegation (t : String) : Bool := t ∈ NEGATIONS

/-! ### Per-message sentiment, code side (`_sentiment_for_message`, lines 80-123)

The function below models the part of `_sentiment_for_message` that runs after
hashtag tokens have been dropped and the remaining tokens normalized
(`normalized_tokens` in the source).  The marks array `negation_marks` is
modelled as a function from index to counter value. -/

/-- One iteration of the `negation_marks` loop (lines 81-85): if index `idx`
holds a negation token, add `+1` to the marks of indices
`idx+1 .. min(len, idx+4)-1`. -/
def negStep (tokens : List String) (marks : ℕ → ℕ) (idx : ℕ) : ℕ → ℕ :=
  if isNegation (tokens.getD idx "") then
    fun i => if idx + 1 ≤ i ∧ i < min tokens.length (idx + 4) then marks i + 1 else marks i
  else marks

/-- `negation_marks` computation (lines 80-85). -/
def negationMarks (tokens : List String) : ℕ → ℕ :=
  (List.range tokens.length).foldl (negStep tokens) (fun _ => 0)

/-- One iteration of the sweep loop (lines 91-117).  State is
`(score_sum, polar_count, pending_intensifier)`. -/
def sweepStep (tokens : List String) (marks : ℕ → ℕ) (isEmployee : Bool)
    (st : ℚ × ℕ × Bool) (idx : ℕ) : ℚ × ℕ × Bool :=
  let token := tokens.getD idx ""
  if isIntensifier token then (st.1, st.2.1, true)
  else
    let base0 : ℚ := if isPositive token then 1 else if isNegative token then -1 else 0
    if base0 = 0 then st
    else
      let base1 := if st.2.2 then base0 * 1.5 else base0
      let base2 := if marks idx % 2 = 1 then base1 * (-1) else base1
      let base3 := if isEmployee ∧ base2 > 0 then base2 * 2 else base2
      (st.1 + base3, st.2.1 + 1, false)

/-- Lines 80-123 of `_sentiment_for_message`: sentiment of the normalized,
hashtag-free token list.  Returns `(label, score)`. -/
def sentimentForTokens (tokens : List String) (isEmployee : Bool) : String × ℚ :=
  let marks := negationMarks tokens
  let final := (List.range tokens.length).foldl (sweepStep tokens marks isEmployee) (0, 0, false)
  let scoreSum := final.1
  let polarCount := final.2.1
  if polarCount = 0 then ("neutral", 0)
  else
    let score := scoreSum / (max 1 polarCount : ℕ)
    (if score > 0.1 then "positive" else if score < -0.1 then "negative" else "neutral", score)

/-! ### Per-message sentiment, spec side

Definitions named `spec*` below follow the wording of the specification's
reference algorithm (spec §4.1, steps 3-5), to be compared with the code-side
definitions above. -/

/-- Spec step 3: the negation mark of index `i` is the number of negation
indices `j` with `j < i ≤ j + 3`. -/
def specNegMark (tokens : List String) (i : ℕ) : ℕ :=
  ((List.range tokens.length).filter
    (fun j => isNegation (tokens.getD j "") && decide (j < i ∧ i ≤ j + 3))).length

/-- Spec step 4: left-to-right sweep over `(token, under_negation)` pairs with a
pending-intensifier flag; returns `(score_sum, polar_count)`. -/
def specSweep (isEmployee : Bool) : List (String × Bool) → Bool → ℚ × ℕ
  | [], _ => (0, 0)
  | (t, underNeg) :: rest, pending =>
    if isIntensifier t then specSweep isEmployee rest true
    else if isPositive t || isNegative t then
      let base : ℚ := if isPositive t then 1 else -1
      let base := if pending then base * 1.5 else base
      let base := if underNeg then base * (-1) else base
      let base := if isEmployee ∧ base > 0 then base * 2 else base
      let tail := specSweep isEmployee rest false
      (base + tail.1, tail.2 + 1)
    else specSweep isEmployee rest pending

/-- Spec steps 3-5 assembled: the reference per-message sentiment over an
already-normalized token list. -/
def specSentimentForTokens (tokens : List String) (isEmployee : Bool) : String × ℚ :=
  let pairs := (List.range tokens.length).map
    (fun i => (tokens.getD i "", decide (Odd (specNegMark tokens i))))
  let res := specSweep isEmployee pairs false
  if res.2 = 0 then ("neutral", 0)
  else
    let score := res.1 / (res.2 : ℚ)
    (if score > 0.1 then "positive" else if score < -0.1 then "negative" else "neutral", score)

/-! ### C1: equivalence of the code-side and spec-side sentiment computations -/

theorem negStep_apply (tokens : List String) (marks : ℕ → ℕ) (j i : ℕ) :
    negStep tokens marks j i
      = marks i + (if isNegation (tokens.getD j "")
          ∧ j + 1 ≤ i ∧ i < min tokens.length (j + 4) then 1 else 0) := by
  by_cases hneg : isNegation (tokens.getD j "")
  · by_cases hrange : j + 1 ≤ i ∧ i < min tokens.length (j + 4)
    · rw [if_pos ⟨hneg, hrange⟩]
      show negStep tokens marks j i = marks i + 1
      unfold negStep
      rw [if_pos hneg]
      exact if_pos hrange
    · rw [if_neg (fun h => hrange h.2), Nat.add_zero]
      unfold negStep
      rw [if_pos hneg]
      exact if_neg hrange
  · rw [if_neg (fun h => hneg h.1), Nat.add_zero]
    unfold negStep
    rw [if_neg hneg]

theorem negationMarks_foldBump (tokens : List String) (js : List ℕ) (m0 : ℕ → ℕ) (i : ℕ) :
    (js.foldl (negStep tokens) m0) i
    = m0 i + (js.filter
        (fun j => isNegation (tokens.getD j "") &&
          decide (j + 1 ≤ i ∧ i < min tokens.length (j + 4)))).length := by
  induction js generalizing m0 with
  | nil => simp
  | cons j js ih =>
    rw [List.foldl_cons, ih, negStep_apply, List.filter_cons]
    have hiff : (isNegation (tokens.getD j "") &&
          decide (j + 1 ≤ i ∧ i < min tokens.length (j + 4))) = true
        ↔ (isNegation (tokens.getD j "") ∧ j + 1 ≤ i ∧ i < min tokens.length (j + 4)) := by
      simp [Bool.and_eq_true]
    by_cases hq : isNegation (tokens.getD j "") ∧ j + 1 ≤ i ∧ i < min tokens.length (j + 4)
    · rw [if_pos hq, if_pos (hiff.mpr hq), List.length_cons]
      omega
    · rw [if_neg hq, if_neg (fun h => hq (hiff.mp h)), Nat.add_zero]

theorem negationMarks_eq_specNegMark (tokens : List String) (i : ℕ) (hi : i < tokens.length) :
    negationMarks tokens i = specNegMark tokens i := by
  unfold negationMarks specNegMark
  rw [negationMarks_foldBump]
  simp only [Nat.zero_add]
  congr 1
  apply List.filter_congr
  intro j hj
  by_cases hneg : isNegation (tokens.getD j "")
  · simp only [hneg, Bool.true_and]
    exact decide_eq_decide.mpr (by omega)
  · have hf : isNegation (tokens.getD j "") = false := by simpa using hneg
    rw [hf, Bool.false_and, Bool.false_and]

/-- The multiplicative base chain shared by the code sweep and the spec sweep:
base polarity, then the pending-intensifier boost, then the negation flip, then
the employee bonus. -/
def polarBase (emp pending underNeg : Bool) (t : String) : ℚ :=
  let base : ℚ := if isPositive t then 1 else if isNegative t then -1 else 0
  let base := if pending then base * 1.5 else base
  let base := if underNeg then base * (-1) else base
  if emp ∧ base > 0 then base * 2 else base

theorem sweepStep_intensifier (tokens : List String) (marks : ℕ → ℕ) (emp : Bool)
    (st : ℚ × ℕ × Bool) (idx : ℕ) (h : isIntensifier (tokens.getD idx "")) :
    sweepStep tokens marks emp st idx = (st.1, st.2.1, true) := by
  simp only [sweepStep]
  rw [if_pos h]

theorem sweepStep_polar (tokens : List String) (marks : ℕ → ℕ) (emp : Bool)
    (st : ℚ × ℕ × Bool) (idx : ℕ) (hint : ¬ isIntensifier (tokens.getD idx ""))
    (hpol : isPositive (tokens.getD idx "") ∨ isNegative (tokens.getD idx "")) :
    sweepStep tokens marks emp st idx
      = (st.1 + polarBase emp st.2.2 (decide (marks idx % 2 = 1)) (tokens.getD idx ""),
         st.2.1 + 1, false) := by
  have hne : ¬ ((if isPositive (tokens.getD idx "") then (1 : ℚ)
      else if isNegative (tokens.getD idx "") then -1 else 0) = 0) := by
    rcases hpol with h | h
    · rw [if_pos h]
      norm_num
    · by_cases hp : isPositive (tokens.getD idx "")
      · rw [if_pos hp]
        norm_num
      · rw [if_neg hp, if_pos h]
        norm_num
  simp only [sweepStep, polarBase, decide_eq_true_eq, if_neg hint, if_neg hne]

theorem sweepStep_skip (tokens : List String) (marks : ℕ → ℕ) (emp : Bool)
    (st : ℚ × ℕ × Bool) (idx : ℕ) (hint : ¬ isIntensifier (tokens.getD idx ""))
    (hpos : ¬ isPositive (tokens.getD idx "")) (hneg : ¬ isNegative (tokens.getD idx "")) :
    sweepStep tokens marks emp st idx = st := by
  have h0 : ((if isPositive (tokens.getD idx "") then (1 : ℚ)
      else if isNegative (tokens.getD idx "") then -1 else 0) = 0) := by
    rw [if_neg hpos, if_neg hneg]
  simp only [sweepStep, if_neg hint, if_pos h0]

theorem specSweep_polar (emp : Bool) (t : String) (underNeg : Bool)
    (rest : List (String × Bool)) (pending : Bool)
    (hint : ¬ isIntensifier t) (hpol : isPositive t ∨ isNegative t) :
    specSweep emp ((t, underNeg) :: rest) pending
      = (polarBase emp pending underNeg t + (specSweep emp rest false).1,
         (specSweep emp rest false).2 + 1) := by
  have hpol' : (isPositive t || isNegative t) = true := by
    rcases hpol with h | h <;> simp [h]
  have hbase : (if isPositive t then (1 : ℚ) else -1)
      = (if isPositive t then (1 : ℚ) else if isNegative t then -1 else 0) := by
    by_cases hp : isPositive t
    · rw [if_pos hp, if_pos hp]
    · rcases hpol with h | h
      · exact absurd h hp
      · rw [if_neg hp, if_neg hp, if_pos h]
  simp only [specSweep, if_neg hint, if_pos hpol', polarBase, ← hbase]

theorem sweep_foldl_eq_specSweep (tokens : List String) (marks : ℕ → ℕ) (emp : Bool)
    (js : List ℕ) (s : ℚ) (c : ℕ) (p : Bool) :
    ∃ p', (js.foldl (sweepStep tokens marks emp) (s, c, p))
      = (s + (specSweep emp (js.map fun i => (tokens.getD i "", decide (marks i % 2 = 1))) p).1,
         c + (specSweep emp (js.map fun i => (tokens.getD i "", decide (marks i % 2 = 1))) p).2,
         p') := by
  induction js generalizing s c p with
  | nil => exact ⟨p, by simp [specSweep]⟩
  | cons j js ih =>
    simp only [List.foldl_cons, List.map_cons]
    by_cases hint : isIntensifier (tokens.getD j "")
    · rw [sweepStep_intensifier tokens marks emp _ j hint, specSweep, if_pos hint]
      exact ih s c true
    · by_cases hpol : isPositive (tokens.getD j "") ∨ isNegative (tokens.getD j "")
      · rw [sweepStep_polar tokens marks emp _ j hint hpol,
          specSweep_polar emp _ _ _ p hint hpol]
        obtain ⟨p', hp'⟩ := ih
          (s + polarBase emp p (decide (marks j % 2 = 1)) (tokens.getD j "")) (c + 1) false
        refine ⟨p', ?_⟩
        rw [hp']
        refine congrArg₂ _ (by ring) (congrArg₂ _ (by omega) rfl)
      · push_neg at hpol
        have hor : ¬ ((isPositive (tokens.getD j "") || isNegative (tokens.getD j "")) = true) := by
          rw [Bool.or_eq_true]
          rintro (h | h)
          · exact hpol.1 h
          · exact hpol.2 h
        rw [sweepStep_skip tokens marks emp _ j hint hpol.1 hpol.2,
          specSweep, if_neg hint, if_neg hor]
        exact ih s c p

/-- **C1.** For every normalized, hashtag-free token list and employee flag, the
per-message sentiment computed by `_sentiment_for_message` (negation marks by
`+1` on the 3 positions after a negation; under negation iff the mark is odd;
left-to-right sweep with pending intensifier ×1.5, negation flip ×−1, employee
bonus ×2 on positive bases; score `score_sum / polar_count`, neutral when no
polar token; labels by the ±0.1 thresholds) agrees exactly with the
specification's reference algorithm. -/
theorem sentiment_for_tokens_eq_spec (tokens : List String) (emp : Bool) :
    sentimentForTokens tokens emp = specSentimentForTokens tokens emp := by
  obtain ⟨p', hp'⟩ := sweep_foldl_eq_specSweep tokens (negationMarks tokens) emp
    (List.range tokens.length) 0 0 false
  have hmap : ((List.range tokens.length).map
        (fun i => (tokens.getD i "", decide (negationMarks tokens i % 2 = 1))))
      = ((List.range tokens.length).map
        (fun i => (tokens.getD i "", decide (Odd (specNegMark tokens i))))) := by
    apply List.map_congr_left
    intro i hi
    have hlt : i < tokens.length := List.mem_range.mp hi
    have hb : decide (negationMarks tokens i % 2 = 1) = decide (Odd (specNegMark tokens i)) := by
      rw [negationMarks_eq_specNegMark tokens i hlt]
      exact (decide_eq_decide.mpr Nat.odd_iff).symm
    rw [hb]
  rw [hmap] at hp'
  simp only [sentimentForTokens, specSentimentForTokens]
  rw [hp']
  simp only [zero_add]
  set res := specSweep emp ((List.range tokens.length).map
    (fun i => (tokens.getD i "", decide (Odd (specNegMark tokens i))))) false with hres
  by_cases hc : res.2 = 0
  · simp [hc]
  · have hmax : (max 1 res.2 : ℕ) = res.2 := by omega
    simp [hc, hmax]

/-! ### Python `round` (banker's rounding), modelled exactly on `ℚ` -/

/-- Round to the nearest integer, ties to the even integer (Python `round`). -/
def roundHalfEven (q : ℚ) : ℤ :=
  let f := ⌊q⌋
  let r := q - f
  if r < 1/2 then f
  else if r > 1/2 then f + 1
  else if Even f then f else f + 1

/-- Python `round(q, n)` for non-negative `n`. -/
def pyRound (q : ℚ) (n : ℕ) : ℚ :=
  ((roundHalfEven (q * 10 ^ n) : ℤ) : ℚ) / 10 ^ n

theorem abs_roundHalfEven_sub (x : ℚ) : |((roundHalfEven x : ℤ) : ℚ) - x| ≤ 1/2 := by
  have h0 : ((⌊x⌋ : ℤ) : ℚ) ≤ x := Int.floor_le x
  have h1 : x < ((⌊x⌋ : ℤ) : ℚ) + 1 := Int.lt_floor_add_one x
  simp only [roundHalfEven]
  split_ifs with hlt hgt hev
  · rw [abs_le]
    constructor <;> linarith
  · push_neg at hlt
    rw [abs_le, Int.cast_add, Int.cast_one]
    constructor <;> linarith
  · push_neg at hlt hgt
    have : x - ⌊x⌋ = 1/2 := le_antisymm hgt hlt
    rw [abs_le]
    constructor <;> linarith
  · push_neg at hlt hgt
    have : x - ⌊x⌋ = 1/2 := le_antisymm hgt hlt
    rw [abs_le, Int.cast_add, Int.cast_one]
    constructor <;> linarith

theorem abs_pyRound_sub (q : ℚ) (n : ℕ) : |pyRound q n - q| ≤ 1 / (2 * 10 ^ n) := by
  have hp : (0 : ℚ) < 10 ^ n := by positivity
  have h := abs_roundHalfEven_sub (q * 10 ^ n)
  have heq : pyRound q n - q
      = (((roundHalfEven (q * 10 ^ n) : ℤ) : ℚ) - q * 10 ^ n) / 10 ^ n := by
    unfold pyRound
    field_simp
    ring
  rw [heq, abs_div, abs_of_pos hp, div_le_div_iff₀ hp (by positivity)]
  calc |((roundHalfEven (q * 10 ^ n) : ℤ) : ℚ) - q * 10 ^ n| * (2 * 10 ^ n)
      ≤ (1/2) * (2 * 10 ^ n) := by
        apply mul_le_mul_of_nonneg_right h
        positivity
    _ = 1 * 10 ^ n := by ring

/-- The three independently rounded percentages of a partition of 100 sum to
within `0.01` of `100`. -/
theorem sum3_pyRound2_bound (a b c : ℚ) (h : a + b + c = 100) :
    |pyRound a 2 + pyRound b 2 + pyRound c 2 - 100| ≤ 1/100 := by
  set na := roundHalfEven (a * 10 ^ 2) with hna
  set nb := roundHalfEven (b * 10 ^ 2) with hnb
  set nc := roundHalfEven (c * 10 ^ 2) with hnc
  have ha := abs_pyRound_sub a 2
  have hb := abs_pyRound_sub b 2
  have hc := abs_pyRound_sub c 2
  have hsum : pyRound a 2 + pyRound b 2 + pyRound c 2 - 100
      = ((na + nb + nc - 10000 : ℤ) : ℚ) / 100 := by
    unfold pyRound
    rw [← hna, ← hnb, ← hnc]
    push_cast
    ring
  have habs : |((na + nb + nc - 10000 : ℤ) : ℚ) / 100| ≤ 3/200 := by
    rw [← hsum]
    have : pyRound a 2 + pyRound b 2 + pyRound c 2 - 100
        = (pyRound a 2 - a) + (pyRound b 2 - b) + (pyRound c 2 - c) := by
      rw [← h]; ring
    rw [this]
    calc |(pyRound a 2 - a) + (pyRound b 2 - b) + (pyRound c 2 - c)|
        ≤ |(pyRound a 2 - a) + (pyRound b 2 - b)| + |pyRound c 2 - c| := abs_add _ _
      _ ≤ |pyRound a 2 - a| + |pyRound b 2 - b| + |pyRound c 2 - c| := by
          have := abs_add (pyRound a 2 - a) (pyRound b 2 - b)
          linarith
      _ ≤ 1 / (2 * 10 ^ 2) + 1 / (2 * 10 ^ 2) + 1 / (2 * 10 ^ 2) := by linarith
      _ = 3/200 := by norm_num
  have hz : |na + nb + nc - 10000| ≤ 1 := by
    by_contra hgt
    push_neg at hgt
    have h2 : (2 : ℤ) ≤ |na + nb + nc - 10000| := hgt
    have : (2 : ℚ) ≤ |((na + nb + nc - 10000 : ℤ) : ℚ)| := by
      rw [← Int.cast_abs]
      exact_mod_cast h2
    rw [abs_div, abs_of_pos (by norm_num : (0:ℚ) < 100)] at habs
    have : |((na + nb + nc - 10000 : ℤ) : ℚ)| ≤ 3/2 := by linarith [habs]
    linarith
  rw [hsum, abs_div, abs_of_pos (by norm_num : (0:ℚ) < 100)]
  have : |((na + nb + nc - 10000 : ℤ) : ℚ)| ≤ 1 := by
    rw [← Int.cast_abs]
    exact_mod_cast hz
  linarith

/-! ### Analytic engine data model (`sentiment_service.py`) -/

/-- Python `needle in hay` substring test. -/
def containsSub (needle hay : String) : Bool :=
  hay.toList.tails.any (fun t => needle.toList.isPrefixOf t)

/-- Python `str.split()` with no separator: split on whitespace runs, dropping
empty chunks (leading and trailing whitespace is ignored). -/
def splitWsAux : List Char → List Char → List String
  | [], cur => if cur = [] then [] else [String.mk cur.reverse]
  | c :: rest, cur =>
    if c.isWhitespace then
      if cur = [] then splitWsAux rest []
      else String.mk cur.reverse :: splitWsAux rest []
    else splitWsAux rest (c :: cur)

def splitWs (s : String) : List String := splitWsAux s.toList []

/-- `' '.join(words)`. -/
def joinSpace : List String → String
  | [] => ""
  | [w] => w
  | w :: ws => w ++ " " ++ joinSpace ws

/-- `' '.join(s.strip().split())`: collapse whitespace runs to single spaces
(the leading `strip` is absorbed by `split`, which already drops boundary
whitespace). -/
def singleSpaced (s : String) : String := joinSpace (splitWs s)

/-- `token.startswith('#')`. -/
def isHashtagToken (t : String) : Bool :=
  match t.toList with
  | c :: _ => c = '#'
  | [] => false

/-- `s.endswith(suffix)`. -/
def strEndsWith (s suffix : String) : Bool := suffix.toList.isSuffixOf s.toList

/-- `_meta_phrase` (lines 55-57). -/
def metaPhrase (normF : String → String) (content : String) : Bool :=
  singleSpaced (normF content) ∈ META_PHRASES

/-- `_candidate_awareness` (lines 60-64). -/
def candidateAwareness (normF : String → String) (content : String) : Bool :=
  let reduced := singleSpaced (normF content)
  if reduced ∈ META_PHRASES then true
  else containsSub "teste" reduced && containsSub "mbras" reduced && containsSub "tecnico" reduced

/-- `_sentiment_for_message` (lines 67-123): `(label, score, is_meta)`. -/
def sentimentForMessage (tokF : String → List String) (normF : String → String)
    (content : String) (isEmployee : Bool) : String × ℚ × Bool :=
  if metaPhrase normF content then ("meta", 0, true)
  else
    let tokens := tokF content
    if tokens = [] then ("neutral", 0, false)
    else
      let normalizedTokens := (tokens.filter (fun t => !isHashtagToken t)).map normF
      if normalizedTokens = [] then ("neutral", 0, false)
      else
        let r := sentimentForTokens normalizedTokens isEmployee
        (r.1, r.2, false)

/-- `AnalyzedMessage` dataclass (lines 23-34); timestamps in integer seconds. -/
structure AnalyzedMessage where
  user_id : String
  timestamp : ℤ
  hashtags : List String
  sentiment_label : String
  sentiment_score : ℚ
  reactions : ℤ
  shares : ℤ
  views : ℤ
  is_meta : Bool
  is_employee : Bool
deriving Repr, DecidableEq

/-- `_followers_for_user` (lines 126-136); `hashF` abstracts the
`sha256`-digest integer of the user id. -/
def followersForUser (normF : String → String) (hashF : String → ℕ) (user_id : String) : ℕ :=
  let lowered := normF user_id
  if containsSub "cafe" lowered then 4242
  else if user_id.length = 13 then 233
  else if strEndsWith lowered "_prime" then 7919
  else hashF user_id % 10000 + 100

/-- `_calculate_engagement_rate` (lines 139-150); `goldenFactor` abstracts the
float value of `1 + 1/φ`. -/
def calculateEngagementRate (goldenFactor : ℚ) (messages : List AnalyzedMessage) : ℚ :=
  let reactions := (messages.map (·.reactions)).sum
  let shares := (messages.map (·.shares)).sum
  let views := (messages.map (·.views)).sum
  if views ≤ 0 then 0
  else
    let rate := ((reactions + shares : ℤ) : ℚ) / (views : ℚ)
    if (reactions + shares) % 7 = 0 ∧ reactions + shares > 0 then rate * goldenFactor else rate

/-- An `influence_ranking` entry (lines 170-177). -/
structure RankEntry where
  user_id : String
  followers : ℕ
  engagement_rate : ℚ
  influence_score : ℚ
deriving Repr, DecidableEq

/-- Distinct keys in first-occurrence order (Python dict iteration order). -/
def dedupFirst (l : List String) : List String :=
  l.foldl (fun acc u => if u ∈ acc then acc else acc ++ [u]) []

/-- Python string comparison: lexicographic on code points. -/
def strLe (a b : String) : Prop := a.toList ≤ b.toList

instance : DecidableRel strLe := fun a b => by
  unfold strLe
  infer_instance

/-- Sort order of `_influence_ranking` (line 179): key `(-influence_score, user_id)`
(`sorted` is stable; the keys of distinct entries are distinct because their
user ids are). -/
def RankLe (a b : RankEntry) : Prop :=
  b.influence_score < a.influence_score
  ∨ (a.influence_score = b.influence_score ∧ strLe a.user_id b.user_id)

instance : DecidableRel RankLe := fun a b => by
  unfold RankLe
  infer_instance

/-- `_influence_ranking` (lines 153-180). -/
def influenceRanking (normF : String → String) (hashF : String → ℕ) (goldenFactor : ℚ)
    (messages : List AnalyzedMessage) : List RankEntry :=
  let users := dedupFirst (messages.map (·.user_id))
  let entries := users.map (fun uid =>
    let userMessages := messages.filter (fun m => m.user_id = uid)
    let followers := followersForUser normF hashF uid
    let rate := calculateEngagementRate goldenFactor userMessages
    let score := (followers : ℚ) * 0.4 + (rate * 100) * 0.6
    let lowered := normF uid
    let score := if strEndsWith lowered "007" then score * 0.5 else score
    let score := if userMessages.any (·.is_employee) then score + 2 else score
    { user_id := uid, followers := followers,
      engagement_rate := pyRound rate 6, influence_score := pyRound score 6 : RankEntry })
  List.insertionSort RankLe entries

/-- Sort order of `_trending_topics` (line 211): key
`(-weight, -count, -sum_sentiment_weight, tag)`. -/
def TrendLe (weight : String → ℚ) (count : String → ℕ) (sws : String → ℚ)
    (a b : String) : Prop :=
  weight b < weight a
  ∨ (weight a = weight b ∧ (count b < count a
      ∨ (count a = count b ∧ (sws b < sws a
          ∨ (sws a = sws b ∧ strLe a b)))))

instance (w : String → ℚ) (c : String → ℕ) (sw : String → ℚ) :
    DecidableRel (TrendLe w c sw) := fun a b => by
  unfold TrendLe
  infer_instance

/-- `_trending_topics` (lines 183-213); `logR n` abstracts the float value of
`log10 n / log10 8`. -/
def trendingTopics (logR : ℕ → ℚ) (messages : List AnalyzedMessage) (nowUtc : ℤ) : List String :=
  let contribs := messages.flatMap (fun m =>
    let ageMin : ℚ := max (((nowUtc - m.timestamp : ℤ) : ℚ) / 60) 0.01
    let timeWeight : ℚ := 1 + 1 / ageMin
    let sentimentWeight : ℚ :=
      if m.sentiment_label = "positive" then 1.2
      else if m.sentiment_label = "negative" then 0.8
      else 1
    m.hashtags.map (fun tag =>
      let lengthFactor : ℚ := if tag.length > 8 then logR tag.length else 1
      (tag, timeWeight * sentimentWeight / max lengthFactor 0.0001, sentimentWeight)))
  let tags := dedupFirst (contribs.map (·.1))
  let weight := fun tag => ((contribs.filter (fun c => c.1 = tag)).map (fun c => c.2.1)).sum
  let count := fun tag => (contribs.filter (fun c => c.1 = tag)).length
  let sws := fun tag => ((contribs.filter (fun c => c.1 = tag)).map (fun c => c.2.2)).sum
  (List.insertionSort (TrendLe weight count sws) tags).take 5

/-- Strictly alternating adjacent labels (`_detect_anomaly`, lines 240-244). -/
def altCheck : List String → Bool
  | a :: b :: rest => decide (a ≠ b) && altCheck (b :: rest)
  | _ => true

/-- The burst scan of `_detect_anomaly` (lines 222-231) over one user's sorted
timestamps. -/
def burstForUser (timestamps : List ℤ) : Bool :=
  (List.range timestamps.length).any (fun idx =>
    let limit := timestamps.getD idx 0 + 300
    let burstSize := 1 + ((timestamps.drop (idx + 1)).takeWhile (fun t => decide (t ≤ limit))).length
    decide (burstSize > 10))

/-- `_detect_anomaly` (lines 216-253). -/
def detectAnomaly (messages : List AnalyzedMessage) : Bool × Option String :=
  let users := dedupFirst (messages.map (·.user_id))
  let burst := users.any (fun uid =>
    burstForUser (List.insertionSort (fun a b : ℤ => a ≤ b)
      ((messages.filter (fun m => m.user_id = uid)).map (·.timestamp))))
  if burst then (true, some "burst")
  else
    let alternation := users.any (fun uid =>
      let userMessages := List.insertionSort
        (fun m n : AnalyzedMessage => m.timestamp ≤ n.timestamp)
        (messages.filter (fun m => m.user_id = uid))
      let labels := (userMessages.filter
        (fun m => m.sentiment_label = "positive" ∨ m.sentiment_label = "negative")).map
        (·.sentiment_label)
      decide (labels.length ≥ 10) && altCheck labels)
    if alternation then (true, some "alternation")
    else if messages.length ≥ 3 then
      let times := List.insertionSort (fun a b : ℤ => a ≤ b) (messages.map (·.timestamp))
      if (times.getLastD 0 - times.headD 0 : ℤ) ≤ 2 then (true, some "synchronized_posting")
      else (false, none)
    else (false, none)

/-- The `sentiment_distribution` block of `analyze_messages` (lines 332-344). -/
def distributionOf (messages : List AnalyzedMessage) : ℚ × ℚ × ℚ :=
  let distributable := messages.filter (fun m => !m.is_meta)
  let total := distributable.length
  if total = 0 then (0, 0, 0)
  else
    let pos := (distributable.filter (fun m => m.sentiment_label = "positive")).length
    let neg := (distributable.filter (fun m => m.sentiment_label = "negative")).length
    let neu := (distributable.filter (fun m => m.sentiment_label = "neutral")).length
    (pyRound ((pos * 100 : ℚ) / total) 2,
     pyRound ((neg * 100 : ℚ) / total) 2,
     pyRound ((neu * 100 : ℚ) / total) 2)

/-! ### `analyze_messages` (lines 267-367) -/

/-- An input message after the timestamp-parsing loop: the coerced payload
fields (`item.get(..., default)`) paired with the parsed timestamp. -/
structure RawMsg where
  content : String
  user_id : String
  hashtags : List String
  reactions : ℤ
  shares : ℤ
  views : ℤ
deriving Repr, DecidableEq

/-- `reference_now` (lines 276-281). -/
def referenceNow (parsed : List (RawMsg × ℤ)) (nowOpt : Option ℤ) (sysNow : ℤ) : ℤ :=
  match nowOpt with
  | some t => t
  | none =>
    match parsed with
    | [] => sysNow
    | p :: rest => rest.foldl (fun acc q => max acc q.2) p.2

/-- The time-window filter (lines 283-289): `start_window ≤ ts ≤ ref + 5s` with
`start_window = ref − time_window_minutes`. -/
def windowFiltered (parsed : List (RawMsg × ℤ)) (tw : ℤ) (ref : ℤ) : List (RawMsg × ℤ) :=
  parsed.filter (fun p => decide (p.2 ≤ ref + 5) && decide (p.2 ≥ ref - tw * 60))

/-- The degenerate fallback (lines 291-292): a non-empty input whose filter is
empty is analyzed in full. -/
def effectiveMessages (parsed : List (RawMsg × ℤ)) (tw : ℤ) (nowOpt : Option ℤ)
    (sysNow : ℤ) : List (RawMsg × ℤ) :=
  let ref := referenceNow parsed nowOpt sysNow
  let filtered := windowFiltered parsed tw ref
  if parsed ≠ [] ∧ filtered = [] then parsed else filtered

/-- The per-message analysis loop (lines 299-330). -/
def buildAnalyzed (tokF : String → List String) (normF : String → String)
    (filtered : List (RawMsg × ℤ)) : List AnalyzedMessage :=
  filtered.map (fun p =>
    let isEmployee := containsSub "mbras" (normF p.1.user_id)
    let r := sentimentForMessage tokF normF p.1.content isEmployee
    { user_id := p.1.user_id, timestamp := p.2, hashtags := p.1.hashtags,
      sentiment_label := r.1, sentiment_score := r.2.1,
      reactions := p.1.reactions, shares := p.1.shares, views := p.1.views,
      is_meta := r.2.2, is_employee := isEmployee })

/-- The analysis document returned by `analyze_messages` (lines 355-367). -/
structure AnalysisDoc where
  dist_positive : ℚ
  dist_negative : ℚ
  dist_neutral : ℚ
  engagement_score : ℚ
  trending_topics : List String
  influence_ranking : List RankEntry
  anomaly_detected : Bool
  anomaly_type : Option String
  mbras_employee : Bool
  special_pattern : Bool
  candidate_awareness : Bool
deriving Repr, DecidableEq

/-- The `engagement_rates` list (line 346): one singleton-rate term per
analyzed message with positive views, meta messages included. -/
def engagementRates (goldenFactor : ℚ) (analyzed : List AnalyzedMessage) : List ℚ :=
  (analyzed.filter (fun m => m.views > 0)).map
    (fun m => calculateEngagementRate goldenFactor [m])

/-- `analyze_messages` after the timestamp-parsing loop (lines 276-367). -/
def analyzeParsed (tokF : String → List String) (normF : String → String)
    (goldenFactor : ℚ) (logR : ℕ → ℚ) (hashF : String → ℕ)
    (parsed : List (RawMsg × ℤ)) (tw : ℤ) (nowOpt : Option ℤ) (sysNow : ℤ) : AnalysisDoc :=
  let ref := referenceNow parsed nowOpt sysNow
  let filtered := effectiveMessages parsed tw nowOpt sysNow
  let analyzed := buildAnalyzed tokF normF filtered
  let candidate := filtered.any (fun p => candidateAwareness normF p.1.content)
  let anyEmployee := filtered.any (fun p => containsSub "mbras" (normF p.1.user_id))
  let special := filtered.any (fun p =>
    decide (p.1.content.length = 42) && containsSub "mbras" (normF p.1.content))
  let distributable := analyzed.filter (fun m => !m.is_meta)
  let dist := distributionOf analyzed
  let rates := engagementRates goldenFactor analyzed
  let engagementScore : ℚ :=
    if rates ≠ [] then pyRound ((rates.sum / (rates.length : ℚ)) * 100) 2
    else 0
  let engagementScore := if candidate then 9.42 else engagementScore
  let anomaly := detectAnomaly analyzed
  let trending := trendingTopics logR distributable ref
  let ranking := influenceRanking normF hashF goldenFactor analyzed
  { dist_positive := dist.1, dist_negative := dist.2.1, dist_neutral := dist.2.2,
    engagement_score := engagementScore,
    trending_topics := trending, influence_ranking := ranking,
    anomaly_detected := anomaly.1, anomaly_type := anomaly.2,
    mbras_employee := anyEmployee, special_pattern := special,
    candidate_awareness := candidate }

/-! ### Concrete instances of the abstracted library functions, for witnesses.

`asciiTokenize` agrees with the `TOKEN_RE` regex on content made of ASCII word
characters, `#`-prefixed hashtags and single spaces; `asciiNormalize` agrees
with `normalize_for_matching` on ASCII content (NFKD and combining-mark
stripping are the identity there). -/

def asciiTokenize (s : String) : List String := splitWs s

def asciiNormalize (s : String) : String := String.mk (s.toList.map Char.toLower)

/-! ### C3: the sentiment distribution sum law -/

theorem sentimentForTokens_label (tokens : List String) (emp : Bool) :
    (sentimentForTokens tokens emp).1 = "positive"
    ∨ (sentimentForTokens tokens emp).1 = "negative"
    ∨ (sentimentForTokens tokens emp).1 = "neutral" := by
  simp only [sentimentForTokens]
  split_ifs <;> simp

theorem sentimentForMessage_label (tokF : String → List String) (normF : String → String)
    (content : String) (emp : Bool)
    (h : (sentimentForMessage tokF normF content emp).2.2 = false) :
    (sentimentForMessage tokF normF content emp).1 = "positive"
    ∨ (sentimentForMessage tokF normF content emp).1 = "negative"
    ∨ (sentimentForMessage tokF normF content emp).1 = "neutral" := by
  simp only [sentimentForMessage] at h ⊢
  split_ifs at h ⊢ with h0 h1 h2
  · simp
  · simp
  · simpa using sentimentForTokens_label
      (((tokF content).filter (fun t => !isHashtagToken t)).map normF) emp

theorem buildAnalyzed_label (tokF : String → List String) (normF : String → String)
    (filtered : List (RawMsg × ℤ)) (m : AnalyzedMessage)
    (hm : m ∈ buildAnalyzed tokF normF filtered) (hmeta : m.is_meta = false) :
    m.sentiment_label = "positive" ∨ m.sentiment_label = "negative"
    ∨ m.sentiment_label = "neutral" := by
  obtain ⟨p, _, hp⟩ := List.mem_map.mp hm
  have hl : m.sentiment_label
      = (sentimentForMessage tokF normF p.1.content
          (containsSub "mbras" (normF p.1.user_id))).1 := by rw [← hp]
  have hmt : m.is_meta
      = (sentimentForMessage tokF normF p.1.content
          (containsSub "mbras" (normF p.1.user_id))).2.2 := by rw [← hp]
  rw [hl]
  exact sentimentForMessage_label _ _ _ _ (by rw [← hmt]; exact hmeta)

theorem filter_three_length (l : List AnalyzedMessage)
    (h : ∀ m ∈ l, m.sentiment_label = "positive" ∨ m.sentiment_label = "negative"
          ∨ m.sentiment_label = "neutral") :
    (l.filter (fun m => m.sentiment_label = "positive")).length
    + (l.filter (fun m => m.sentiment_label = "negative")).length
    + (l.filter (fun m => m.sentiment_label = "neutral")).length = l.length := by
  induction l with
  | nil => simp
  | cons m l ih =>
    have hm := h m (List.mem_cons_self m l)
    have ihl := ih (fun x hx => h x (List.mem_cons_of_mem _ hx))
    rcases hm with hm | hm | hm <;>
      simp only [List.filter_cons, hm, decide_eq_true_eq, List.length_cons] <;>
      split_ifs <;> simp_all <;> omega

theorem distributionOf_sum_bound (l : List AnalyzedMessage)
    (h : ∀ m ∈ l, m.is_meta = false →
        m.sentiment_label = "positive" ∨ m.sentiment_label = "negative"
        ∨ m.sentiment_label = "neutral") :
    distributionOf l = (0, 0, 0)
    ∨ |(distributionOf l).1 + (distributionOf l).2.1 + (distributionOf l).2.2 - 100| ≤ 1/100 := by
  simp only [distributionOf]
  by_cases htot : (l.filter (fun m => !m.is_meta)).length = 0
  · left
    rw [if_pos htot]
  · right
    rw [if_neg htot]
    set d := l.filter (fun m => !m.is_meta) with hd
    have hmem : ∀ m ∈ d, m.sentiment_label = "positive" ∨ m.sentiment_label = "negative"
        ∨ m.sentiment_label = "neutral" := by
      intro m hm
      have h2 := List.mem_filter.mp hm
      exact h m h2.1 (by simpa using h2.2)
    have hcount := filter_three_length d hmem
    have htotQ : ((d.length : ℚ)) ≠ 0 := Nat.cast_ne_zero.mpr htot
    have habc : ((d.filter (fun m => m.sentiment_label = "positive")).length * 100 : ℚ) / d.length
        + ((d.filter (fun m => m.sentiment_label = "negative")).length * 100 : ℚ) / d.length
        + ((d.filter (fun m => m.sentiment_label = "neutral")).length * 100 : ℚ) / d.length
        = 100 := by
      have hq : ((d.filter (fun m => m.sentiment_label = "positive")).length : ℚ)
          + ((d.filter (fun m => m.sentiment_label = "negative")).length : ℚ)
          + ((d.filter (fun m => m.sentiment_label = "neutral")).length : ℚ)
          = (d.length : ℚ) := by exact_mod_cast hcount
      field_simp
      linarith
    exact sum3_pyRound2_bound _ _ _ habc

/-- **C3.** The sentiment distribution of every analysis is either all zero (no
non-meta analyzed messages) or its three independently rounded percentages sum
to within 0.01 of 100. -/
theorem sentiment_distribution_sum_law (tokF : String → List String)
    (normF : String → String) (goldenFactor : ℚ) (logR : ℕ → ℚ) (hashF : String → ℕ)
    (parsed : List (RawMsg × ℤ)) (tw : ℤ) (nowOpt : Option ℤ) (sysNow : ℤ) :
    (let doc := analyzeParsed tokF normF goldenFactor logR hashF parsed tw nowOpt sysNow
     (doc.dist_positive = 0 ∧ doc.dist_negative = 0 ∧ doc.dist_neutral = 0)
     ∨ |doc.dist_positive + doc.dist_negative + doc.dist_neutral - 100| ≤ 1/100) := by
  have h := distributionOf_sum_bound
    (buildAnalyzed tokF normF (effectiveMessages parsed tw nowOpt sysNow))
    (fun m hm hmeta => buildAnalyzed_label tokF normF _ m hm hmeta)
  have h1 : (analyzeParsed tokF normF goldenFactor logR hashF parsed tw nowOpt sysNow).dist_positive
      = (distributionOf (buildAnalyzed tokF normF
          (effectiveMessages parsed tw nowOpt sysNow))).1 := rfl
  have h2 : (analyzeParsed tokF normF goldenFactor logR hashF parsed tw nowOpt sysNow).dist_negative
      = (distributionOf (buildAnalyzed tokF normF
          (effectiveMessages parsed tw nowOpt sysNow))).2.1 := rfl
  have h3 : (analyzeParsed tokF normF goldenFactor logR hashF parsed tw nowOpt sysNow).dist_neutral
      = (distributionOf (buildAnalyzed tokF normF
          (effectiveMessages parsed tw nowOpt sysNow))).2.2 := rfl
  rcases h with h | h
  · left
    exact ⟨by rw [h1, h], by rw [h2, h], by rw [h3, h]⟩
  · right
    rw [h1, h2, h3]
    exact h

/-! ### C4: reference time, window filter, degenerate fallback -/

theorem foldl_max_spec (rest : List (RawMsg × ℤ)) (a : ℤ) :
    a ≤ rest.foldl (fun acc q => max acc q.2) a
    ∧ (∀ q ∈ rest, q.2 ≤ rest.foldl (fun acc q => max acc q.2) a)
    ∧ (rest.foldl (fun acc q => max acc q.2) a = a
        ∨ ∃ q ∈ rest, rest.foldl (fun acc q => max acc q.2) a = q.2) := by
  induction rest generalizing a with
  | nil => simp
  | cons q rest ih =>
    rw [List.foldl_cons]
    obtain ⟨h1, h2, h3⟩ := ih (max a q.2)
    refine ⟨le_trans (le_max_left _ _) h1, ?_, ?_⟩
    · intro r hr
      rcases List.mem_cons.mp hr with rfl | hr
      · exact le_trans (le_max_right _ _) h1
      · exact h2 r hr
    · rcases h3 with h3 | ⟨r, hr, h3⟩
      · rcases max_choice a q.2 with hm | hm
        · left
          rw [h3, hm]
        · right
          exact ⟨q, List.mem_cons_self q rest, by rw [h3, hm]⟩
      · right
        exact ⟨r, List.mem_cons_of_mem _ hr, h3⟩

theorem referenceNow_max (parsed : List (RawMsg × ℤ)) (sysNow : ℤ) (hne : parsed ≠ []) :
    referenceNow parsed none sysNow ∈ parsed.map (fun p => p.2)
    ∧ ∀ p ∈ parsed, p.2 ≤ referenceNow parsed none sysNow := by
  match parsed with
  | [] => exact absurd rfl hne
  | p :: rest =>
    simp only [referenceNow]
    obtain ⟨h1, h2, h3⟩ := foldl_max_spec rest p.2
    constructor
    · rcases h3 with h3 | ⟨q, hq, h3⟩
      · rw [h3]
        exact List.mem_map_of_mem _ (List.mem_cons_self p rest)
      · rw [h3]
        exact List.mem_map_of_mem _ (List.mem_cons_of_mem _ hq)
    · intro q hq
      rcases List.mem_cons.mp hq with rfl | hq
      · exact h1
      · exact h2 q hq

/-- **C4.** With no explicit `now_utc`: the reference time of a non-empty input
is the maximum parsed timestamp; the kept messages are exactly those with
`ref − window ≤ ts ≤ ref + 5s`; if that filter is empty the full input is
analyzed instead; and the empty input (reference = system now) yields the
all-zero analysis document. -/
theorem reference_now_window_and_fallback (tokF : String → List String)
    (normF : String → String) (goldenFactor : ℚ) (logR : ℕ → ℚ) (hashF : String → ℕ)
    (parsed : List (RawMsg × ℤ)) (tw sysNow : ℤ) (hne : parsed ≠ []) :
    (referenceNow parsed none sysNow ∈ parsed.map (fun p => p.2)
      ∧ (∀ p ∈ parsed, p.2 ≤ referenceNow parsed none sysNow))
    ∧ (windowFiltered parsed tw (referenceNow parsed none sysNow) ≠ [] →
        ∀ p : RawMsg × ℤ, p ∈ effectiveMessages parsed tw none sysNow ↔
          (p ∈ parsed ∧ referenceNow parsed none sysNow - tw * 60 ≤ p.2
            ∧ p.2 ≤ referenceNow parsed none sysNow + 5))
    ∧ (windowFiltered parsed tw (referenceNow parsed none sysNow) = [] →
        effectiveMessages parsed tw none sysNow = parsed)
    ∧ analyzeParsed tokF normF goldenFactor logR hashF [] tw none sysNow
        = { dist_positive := 0, dist_negative := 0, dist_neutral := 0, engagement_score := 0,
            trending_topics := [], influence_ranking := [], anomaly_detected := false,
            anomaly_type := none, mbras_employee := false, special_pattern := false,
            candidate_awareness := false } := by
  refine ⟨referenceNow_max parsed sysNow hne, ?_, ?_, by
    simp [analyzeParsed, effectiveMessages, windowFiltered, referenceNow, buildAnalyzed,
      distributionOf, engagementRates, detectAnomaly, trendingTopics, influenceRanking,
      dedupFirst]⟩
  · intro hfil p
    have heff : effectiveMessages parsed tw none sysNow
        = windowFiltered parsed tw (referenceNow parsed none sysNow) := by
      simp only [effectiveMessages]
      rw [if_neg (fun hc => hfil hc.2)]
    rw [heff]
    unfold windowFiltered
    rw [List.mem_filter]
    constructor
    · rintro ⟨hp, hcond⟩
      have := Bool.and_eq_true_iff.mp hcond
      exact ⟨hp, by simpa using this.2, by simpa using this.1⟩
    · rintro ⟨hp, hlo, hhi⟩
      exact ⟨hp, by simp [hhi, hlo]⟩
  · intro hfil
    simp only [effectiveMessages]
    rw [if_pos ⟨hne, hfil⟩]

/-! ### C10: meta messages in distribution, trending, engagement and ranking -/

theorem mem_dedupFirst_foldl (l : List String) (acc : List String) (x : String) :
    x ∈ l.foldl (fun acc u => if u ∈ acc then acc else acc ++ [u]) acc
      ↔ x ∈ acc ∨ x ∈ l := by
  induction l generalizing acc with
  | nil => simp
  | cons u l ih =>
    rw [List.foldl_cons]
    by_cases h : u ∈ acc
    · rw [if_pos h, ih, List.mem_cons]
      constructor
      · rintro (h1 | h2)
        · exact Or.inl h1
        · exact Or.inr (Or.inr h2)
      · rintro (h1 | h2 | h3)
        · exact Or.inl h1
        · exact Or.inl (h2 ▸ h)
        · exact Or.inr h3
    · rw [if_neg h, ih, List.mem_append, List.mem_singleton, List.mem_cons]
      tauto

theorem mem_dedupFirst (l : List String) (x : String) : x ∈ dedupFirst l ↔ x ∈ l := by
  unfold dedupFirst
  rw [mem_dedupFirst_foldl]
  simp

theorem exists_mem_insertionSort_map (users : List String) (f : String → RankEntry)
    (hf : ∀ u, (f u).user_id = u) (uid : String) (hu : uid ∈ users) :
    ∃ e ∈ List.insertionSort RankLe (users.map f), e.user_id = uid :=
  ⟨f uid, (List.perm_insertionSort RankLe (users.map f)).mem_iff.mpr
    (List.mem_map_of_mem f hu), hf uid⟩

theorem influenceRanking_user_mem (normF : String → String) (hashF : String → ℕ)
    (goldenFactor : ℚ) (messages : List AnalyzedMessage) (m : AnalyzedMessage)
    (hm : m ∈ messages) :
    ∃ e ∈ influenceRanking normF hashF goldenFactor messages, e.user_id = m.user_id := by
  have hu : m.user_id ∈ dedupFirst (messages.map (fun x => x.user_id)) :=
    (mem_dedupFirst _ _).mpr (List.mem_map_of_mem _ hm)
  simp only [influenceRanking]
  exact exists_mem_insertionSort_map _ _ (fun u => rfl) _ hu

theorem distributionOf_filter_meta (l : List AnalyzedMessage) :
    distributionOf (l.filter (fun m => !m.is_meta)) = distributionOf l := by
  have hff : (l.filter (fun m => !m.is_meta)).filter (fun m => !m.is_meta)
      = l.filter (fun m => !m.is_meta) := by
    rw [List.filter_filter]
    apply List.filter_congr
    intro a _
    exact Bool.and_self _
  unfold distributionOf
  rw [hff]

/-- **C10.** Meta messages are excluded from the sentiment distribution and the
trending-topic aggregation, yet an analyzed meta message with positive views
still contributes its singleton engagement rate to the `engagement_rates` mean,
and its user appears in the influence ranking — and can rank first, as the
concrete meta-only feed shows. -/
theorem meta_message_aggregation (tokF : String → List String) (normF : String → String)
    (goldenFactor : ℚ) (logR : ℕ → ℚ) (hashF : String → ℕ)
    (parsed : List (RawMsg × ℤ)) (tw : ℤ) (nowOpt : Option ℤ) (sysNow : ℤ) :
    (let analyzed := buildAnalyzed tokF normF (effectiveMessages parsed tw nowOpt sysNow)
     let doc := analyzeParsed tokF normF goldenFactor logR hashF parsed tw nowOpt sysNow
     ((doc.dist_positive, doc.dist_negative, doc.dist_neutral)
        = (let d := distributionOf (analyzed.filter (fun m => !m.is_meta))
           (d.1, d.2.1, d.2.2))
      ∧ doc.trending_topics
        = trendingTopics logR (analyzed.filter (fun m => !m.is_meta))
            (referenceNow parsed nowOpt sysNow)
      ∧ (∀ m ∈ analyzed, m.is_meta = true → m.views > 0 →
          calculateEngagementRate goldenFactor [m] ∈ engagementRates goldenFactor analyzed)
      ∧ (∀ m ∈ analyzed, ∃ e ∈ doc.influence_ranking, e.user_id = m.user_id)))
    ∧ ((sentimentForMessage asciiTokenize asciiNormalize "teste tecnico mbras" true).2.2 = true
      ∧ (analyzeParsed asciiTokenize asciiNormalize 2 (fun _ => 1) (fun _ => 0)
          [({ content := "teste tecnico mbras", user_id := "user_mbras_meta1",
              hashtags := ["#m"], reactions := 1, shares := 0, views := 5 }, 0)] 30 none 0
        ).influence_ranking.map (fun e => e.user_id) = ["user_mbras_meta1"]) := by
  refine ⟨⟨?_, rfl, ?_, ?_⟩, by decide, by decide⟩
  · rw [distributionOf_filter_meta]
    rfl
  · intro m hm _ hviews
    unfold engagementRates
    exact List.mem_map_of_mem _ (List.mem_filter.mpr ⟨hm, by simpa using hviews⟩)
  · intro m hm
    exact influenceRanking_user_mem normF hashF goldenFactor _ m hm

/-! ### C2: the timestamp-parsing loop of `analyze_messages` (lines 256-274)

`_parse_message_timestamp` accepts a `datetime` value unchanged and otherwise
applies `datetime.strptime(str(value), '%Y-%m-%dT%H:%M:%SZ')`, which raises
`ValueError` on any other shape — including RFC3339 strings with a numeric
UTC offset.  `analyze_messages` reads `item['timestamp']`, which raises
`KeyError` when the field is missing.  Exceptions are modelled as `none`.

Parsed datetimes are represented by epoch-style seconds computed from the
civil components (proleptic Gregorian).  The `to_app_timezone` conversion
applied uniformly by the source is an order- and difference-preserving shift
and is dropped; no settled claim depends on the relative offset between
datetime-typed and string-typed timestamps. -/

/-- A `timestamp` field value: either a `datetime` (already parsed) or a string. -/
inductive TsVal where
  | dt (epoch : ℤ)
  | str (s : String)
deriving Repr, DecidableEq

/-- An input message dict for `analyze_messages`: every payload field is
optional (`item.get(key, default)`), and a missing `timestamp` key makes
`item['timestamp']` raise. -/
structure InMsg where
  content : Option String
  user_id : Option String
  hashtags : Option (List String)
  reactions : Option ℤ
  shares : Option ℤ
  views : Option ℤ
  timestamp : Option TsVal
deriving Repr, DecidableEq

def digitVal (c : Char) : ℕ := c.toNat - 48

def isLeapYear (y : ℕ) : Bool := (y % 4 = 0 && y % 100 ≠ 0) || y % 400 = 0

def daysInMonth (y m : ℕ) : ℕ :=
  if m = 2 then (if isLeapYear y then 29 else 28)
  else if m = 4 ∨ m = 6 ∨ m = 9 ∨ m = 11 then 30
  else 31

/-- Days from 1970-01-01 to the given civil date (proleptic Gregorian,
`y ≥ 1`). -/
def daysFromCivil (y m d : ℕ) : ℤ :=
  let y' := if m ≤ 2 then y - 1 else y
  let era := y' / 400
  let yoe := y' % 400
  let mp := (m + 9) % 12
  let doy := (153 * mp + 2) / 5 + d - 1
  let doe := yoe * 365 + yoe / 4 - yoe / 100 + doy
  (era : ℤ) * 146097 + (doe : ℤ) - 719468

def epochOfCivil (y mo d h mi s : ℕ) : ℤ :=
  daysFromCivil y mo d * 86400 + h * 3600 + mi * 60 + s

/-- `datetime.strptime(s, '%Y-%m-%dT%H:%M:%SZ')` (with a four-digit year):
`none` models the `ValueError` raised on any mismatch, including RFC3339
strings with a numeric UTC offset. -/
def strptimeZ (s : String) : Option ℤ :=
  match s.toList with
  | [y1, y2, y3, y4, '-', m1, m2, '-', d1, d2, 'T', h1, h2, ':', mi1, mi2, ':', s1, s2, 'Z'] =>
    if y1.isDigit && y2.isDigit && y3.isDigit && y4.isDigit && m1.isDigit && m2.isDigit
        && d1.isDigit && d2.isDigit && h1.isDigit && h2.isDigit && mi1.isDigit && mi2.isDigit
        && s1.isDigit && s2.isDigit then
      let year := 1000 * digitVal y1 + 100 * digitVal y2 + 10 * digitVal y3 + digitVal y4
      let month := 10 * digitVal m1 + digitVal m2
      let day := 10 * digitVal d1 + digitVal d2
      let hour := 10 * digitVal h1 + digitVal h2
      let minute := 10 * digitVal mi1 + digitVal mi2
      let second := 10 * digitVal s1 + digitVal s2
      if 1 ≤ year ∧ 1 ≤ month ∧ month ≤ 12 ∧ 1 ≤ day ∧ day ≤ daysInMonth year month
          ∧ hour ≤ 23 ∧ minute ≤ 59 ∧ second ≤ 59 then
        some (epochOfCivil year month day hour minute second)
      else none
    else none
  | _ => none

/-- `_parse_message_timestamp` (lines 256-264). -/
def parseMessageTimestamp (v : TsVal) : Option ℤ :=
  match v with
  | .dt t => some t
  | .str s => strptimeZ s

/-- The `item.get(key, default)` coercions of the analysis loop
(lines 300-326). -/
def getItemFields (m : InMsg) : RawMsg :=
  { content := m.content.getD "", user_id := m.user_id.getD "",
    hashtags := m.hashtags.getD [], reactions := m.reactions.getD 0,
    shares := m.shares.getD 0, views := m.views.getD 0 }

/-- The parsing loop of `analyze_messages` (lines 272-274): `none` models the
exception escaping `analyze_messages` (missing key or unparseable string). -/
def parsePhase : List InMsg → Option (List (RawMsg × ℤ))
  | [] => some []
  | m :: rest => do
    let tv ← m.timestamp
    let ts ← parseMessageTimestamp tv
    let tail ← parsePhase rest
    pure ((getItemFields m, ts) :: tail)

/-- `analyze_messages` (lines 267-367) as a fallible function of the raw input
dicts. -/
def analyzeMessages (tokF : String → List String) (normF : String → String)
    (goldenFactor : ℚ) (logR : ℕ → ℚ) (hashF : String → ℕ)
    (messages : List InMsg) (tw : ℤ) (nowOpt : Option ℤ) (sysNow : ℤ) :
    Option AnalysisDoc :=
  (parsePhase messages).map
    (fun parsed => analyzeParsed tokF normF goldenFactor logR hashF parsed tw nowOpt sysNow)

/-- **C2 counterexample.** `analyze_messages` is not total: it raises on a
message dict missing the `timestamp` key and on an RFC3339 timestamp with a
numeric UTC offset, while the same instant with `Z` parses. -/
theorem analyze_messages_can_raise :
    analyzeMessages asciiTokenize asciiNormalize 2 (fun _ => 1) (fun _ => 0)
      [{ content := some "adorei", user_id := some "user_abc123", hashtags := some [],
         reactions := some 0, shares := some 0, views := some 0, timestamp := none }]
      30 none 0 = none
    ∧ analyzeMessages asciiTokenize asciiNormalize 2 (fun _ => 1) (fun _ => 0)
      [{ content := some "adorei", user_id := some "user_abc123", hashtags := some [],
         reactions := some 0, shares := some 0, views := some 0,
         timestamp := some (.str "2026-02-20T10:00:00+00:00") }]
      30 none 0 = none
    ∧ strptimeZ "2026-02-20T10:00:00+00:00" = none
    ∧ strptimeZ "2026-02-20T10:00:00Z" = some 1771581600 :=
  ⟨rfl, rfl, rfl, rfl⟩

theorem parsePhase_total (messages : List InMsg)
    (h : ∀ m ∈ messages, ∃ tv, m.timestamp = some tv
        ∧ ∃ t, parseMessageTimestamp tv = some t) :
    ∃ parsed, parsePhase messages = some parsed := by
  induction messages with
  | nil => exact ⟨[], rfl⟩
  | cons m rest ih =>
    obtain ⟨tv, htv, t, ht⟩ := h m (List.mem_cons_self m rest)
    obtain ⟨tail, htail⟩ := ih (fun x hx => h x (List.mem_cons_of_mem _ hx))
    refine ⟨(getItemFields m, t) :: tail, ?_⟩
    simp [parsePhase, htv, ht, htail]

/-- **C2 (amended).** `analyze_messages` returns an analysis document for every
input whose `timestamp` fields are present and parseable (`datetime` values or
`YYYY-MM-DDTHH:MM:SSZ` strings); the other payload fields may be missing or
arbitrary, they are coerced to defaults.  (The original claim fails on missing
timestamps and on numeric-offset timestamps, see the counterexample.) -/
theorem analyze_messages_total_on_parseable (tokF : String → List String)
    (normF : String → String) (goldenFactor : ℚ) (logR : ℕ → ℚ) (hashF : String → ℕ)
    (messages : List InMsg) (tw : ℤ) (nowOpt : Option ℤ) (sysNow : ℤ)
    (h : ∀ m ∈ messages, ∃ tv, m.timestamp = some tv
        ∧ ∃ t, parseMessageTimestamp tv = some t) :
    ∃ doc, analyzeMessages tokF normF goldenFactor logR hashF messages tw nowOpt sysNow
      = some doc := by
  obtain ⟨parsed, hp⟩ := parsePhase_total messages h
  exact ⟨_, by rw [analyzeMessages, hp]; rfl⟩

/-- A concrete valid input message with a `Z`-form string timestamp. -/
def inMsgZ : InMsg :=
  { content := some "adorei", user_id := some "user_abc123", hashtags := some [],
    reactions := some 0, shares := some 0, views := some 0,
    timestamp := some (.str "2026-02-20T10:00:00Z") }

theorem analyze_messages_total_on_parseable_witness :
    (∀ m ∈ [inMsgZ],
      ∃ tv, m.timestamp = some tv ∧ ∃ t, parseMessageTimestamp tv = some t)
    ∧ ∃ doc, analyzeMessages asciiTokenize asciiNormalize 2 (fun _ => 1) (fun _ => 0)
        [inMsgZ] 30 none 0 = some doc := by
  have hpar : ∀ m ∈ [inMsgZ],
      ∃ tv, m.timestamp = some tv ∧ ∃ t, parseMessageTimestamp tv = some t := by
    intro m hm
    rw [List.mem_singleton] at hm
    subst hm
    exact ⟨.str "2026-02-20T10:00:00Z", rfl, 1771581600, rfl⟩
  exact ⟨hpar, analyze_messages_total_on_parseable asciiTokenize asciiNormalize 2
    (fun _ => 1) (fun _ => 0) _ 30 none 0 hpar⟩

/-! ### C9: the online `POST /analyze-feed` response

`AnalyzeFeedResponse` (`app/application/dtos/analysis.py`, lines 61-62) is the
response model of the online path; it declares exactly one field, `analysis`.
The route handler (`app/api/v1/routes/analyze_feed.py`, lines 98-177) returns
`{'analysis': analysis}` on success; the request's correlation id is used for
persistence and logging only. -/

structure AnalyzeFeedResponse where
  analysis : AnalysisDoc
deriving Repr, DecidableEq

/-- The JSON keys of a serialized `AnalyzeFeedResponse`. -/
def analyzeFeedResponseKeys : List String := ["analysis"]

/-- The online branch of `analyze_feed` (lines 98-177): validated messages are
analyzed and the handler responds HTTP 200 with the analysis body.  The
`correlationId` parameter models the request's correlation id, which the
handler receives but does not place in the success body.  (On the validated
path the timestamps are `datetime` values produced by `parse_rfc3339_z`.) -/
def analyzeFeedOnline (tokF : String → List String) (normF : String → String)
    (goldenFactor : ℚ) (logR : ℕ → ℚ) (hashF : String → ℕ)
    (messages : List InMsg) (tw : ℤ) (sysNow : ℤ) (correlationId : String) :
    Option (ℕ × AnalyzeFeedResponse) :=
  (analyzeMessages tokF normF goldenFactor logR hashF messages tw none sysNow).map
    (fun doc => (200, ⟨doc⟩))

/-- A concrete valid input message with a `datetime` timestamp (as produced by
the HTTP validation layer). -/
def inMsgDt : InMsg :=
  { content := some "adorei produto", user_id := some "user_abc123",
    hashtags := some ["#produto"], reactions := some 2, shares := some 1,
    views := some 10, timestamp := some (.dt 1771581600) }

/-- **C9 counterexample.** The 200 body of the online path carries only the
`analysis` field: the correlation id is not part of the success response. -/
theorem analyze_feed_body_lacks_correlation_id :
    analyzeFeedResponseKeys = ["analysis"]
    ∧ "correlation_id" ∉ analyzeFeedResponseKeys
    ∧ (analyzeFeedOnline asciiTokenize asciiNormalize 2 (fun _ => 1) (fun _ => 0)
        [inMsgDt] 30 0 "corr-1").map (fun r => r.1) = some 200 :=
  ⟨rfl, by decide, rfl⟩

/-- **C9 (amended).** For every valid online request (timestamps are `datetime`
values after HTTP validation), the route responds 200 with a body containing
the analysis document — and nothing else: the body's only key is `analysis`,
so the correlation id does not appear in the success body. -/
theorem analyze_feed_online_returns_200_analysis (tokF : String → List String)
    (normF : String → String) (goldenFactor : ℚ) (logR : ℕ → ℚ) (hashF : String → ℕ)
    (messages : List InMsg) (tw : ℤ) (sysNow : ℤ) (correlationId : String)
    (h : ∀ m ∈ messages, ∃ t, m.timestamp = some (TsVal.dt t)) :
    (∃ doc, analyzeFeedOnline tokF normF goldenFactor logR hashF messages tw sysNow
        correlationId = some (200, { analysis := doc }))
    ∧ analyzeFeedResponseKeys = ["analysis"] := by
  refine ⟨?_, rfl⟩
  obtain ⟨parsed, hp⟩ := parsePhase_total messages
    (fun m hm => by
      obtain ⟨t, ht⟩ := h m hm
      exact ⟨.dt t, ht, t, rfl⟩)
  exact ⟨_, by rw [analyzeFeedOnline, analyzeMessages, hp]; rfl⟩

theorem analyze_feed_online_returns_200_analysis_witness :
    (∀ m ∈ [inMsgDt], ∃ t, m.timestamp = some (TsVal.dt t))
    ∧ ((∃ doc, analyzeFeedOnline asciiTokenize asciiNormalize 2 (fun _ => 1) (fun _ => 0)
          [inMsgDt] 30 0 "corr-1" = some (200, { analysis := doc }))
        ∧ analyzeFeedResponseKeys = ["analysis"]) := by
  have h : ∀ m ∈ [inMsgDt], ∃ t, m.timestamp = some (TsVal.dt t) := by
    intro m hm
    rw [List.mem_singleton] at hm
    subst hm
    exact ⟨1771581600, rfl⟩
  exact ⟨h, analyze_feed_online_returns_200_analysis asciiTokenize asciiNormalize 2
    (fun _ => 1) (fun _ => 0) [inMsgDt] 30 0 "corr-1" h⟩

/-- A concrete parsed message for witnesses. -/
def rawMsgBom : RawMsg :=
  { content := "bom #x", user_id := "user_alpha_001", hashtags := ["#x"],
    reactions := 1, shares := 0, views := 10 }

theorem reference_now_window_and_fallback_witness :
    ([(rawMsgBom, (1000 : ℤ))] ≠ [])
    ∧ referenceNow [(rawMsgBom, 1000)] none 0 ∈ [(rawMsgBom, (1000 : ℤ))].map (fun p => p.2) := by
  refine ⟨by decide, ?_⟩
  exact (reference_now_window_and_fallback asciiTokenize asciiNormalize 2 (fun _ => 1)
    (fun _ => 0) [(rawMsgBom, 1000)] 30 0 (by decide)).1.1

/-- The concrete meta message of the C10 example, as analyzed. -/
def analyzedMeta : AnalyzedMessage :=
  { user_id := "user_mbras_meta1", timestamp := 0, hashtags := ["#m"],
    sentiment_label := "meta", sentiment_score := 0, reactions := 1, shares := 0,
    views := 5, is_meta := true, is_employee := true }

/-- The concrete meta message of the C10 example, as a parsed input. -/
def rawMsgMeta : RawMsg :=
  { content := "teste tecnico mbras", user_id := "user_mbras_meta1", hashtags := ["#m"],
    reactions := 1, shares := 0, views := 5 }

theorem meta_message_aggregation_witness :
    (analyzedMeta ∈ buildAnalyzed asciiTokenize asciiNormalize
      (effectiveMessages [(rawMsgMeta, 0)] 30 none 0))
    ∧ ∃ e ∈ (analyzeParsed asciiTokenize asciiNormalize 2 (fun _ => 1) (fun _ => 0)
        [(rawMsgMeta, 0)] 30 none 0).influence_ranking,
      e.user_id = analyzedMeta.user_id := by
  refine ⟨by decide, ?_⟩
  exact ((meta_message_aggregation asciiTokenize asciiNormalize 2 (fun _ => 1) (fun _ => 0)
    [(rawMsgMeta, 0)] 30 none 0).1.2.2.2) analyzedMeta (by decide)

/-! ### C5: bulk ingestion fast path (`ingest_batch_fastpath.py`)

`execute` is deterministic given the generated UUIDs and the resolved user
map; `uuidGen i` models the `uuid4()` drawn for input item `i` without an
explicit correlation id, `msgIdGen`/`procIdGen`/`outIdGen k` the UUIDs drawn
for the `k`-th surviving row, and `resolveUser` the `user_map` built by
`_resolve_users_for_batch`.  `existing` is the set of correlation ids already
persisted (`existing_by_correlation`, from the single batched query). -/

/-- Python `str.strip()`. -/
def pyStrip (s : String) : String :=
  String.mk (((s.toList.dropWhile Char.isWhitespace).reverse.dropWhile
    Char.isWhitespace).reverse)

/-- An input item of the bulk fast path (the payload fields that do not affect
row creation are omitted). -/
structure FastItem where
  correlation_id : Option String
  user_id : String
deriving Repr, DecidableEq

structure MessageRow where
  id : String
  user_id : String
  correlation_id : String
deriving Repr, DecidableEq

structure ProcessingRow where
  id : String
  message_id : String
  processing_status : String
deriving Repr, DecidableEq

structure OutboxInsertRow where
  id : String
  message_id : String
  correlation_id : String
  event_type : String
  status : String
  attempts : ℤ
deriving Repr, DecidableEq

structure BatchIngestResult where
  accepted : ℕ
  messageRows : List MessageRow
  processingRows : List ProcessingRow
  outboxRows : List OutboxInsertRow
deriving Repr, DecidableEq

/-- `execute` lines 35-40: `correlation_id = str(item.get('correlation_id', '')).strip() or uuid4()`. -/
def prepareItems (uuidGen : ℕ → String) (items : List FastItem) :
    List (ℕ × FastItem × String) :=
  items.enum.map (fun p =>
    let raw := pyStrip (p.2.correlation_id.getD "")
    (p.1, p.2, if raw = "" then uuidGen p.1 else raw))

/-- `execute` lines 48-57: keep only the first occurrence of each correlation
id that is not already persisted. -/
def dedupeBatch (existing : List String) (prepared : List (ℕ × FastItem × String)) :
    List (ℕ × FastItem × String) :=
  (prepared.foldl
    (fun acc entry =>
      if entry.2.2 ∈ existing ∨ entry.2.2 ∈ acc.2 then acc
      else (acc.1 ++ [entry], acc.2 ++ [entry.2.2]))
    ([], [])).1

/-- `execute` lines 59-132: one message row, one processing row and one outbox
row per surviving item. -/
def buildBatchRows (msgIdGen procIdGen outIdGen : ℕ → String)
    (resolveUser : String → String) (toCreate : List (ℕ × FastItem × String)) :
    List MessageRow × List ProcessingRow × List OutboxInsertRow :=
  (toCreate.enum.map (fun p =>
      { id := msgIdGen p.1, user_id := resolveUser (pyStrip p.2.2.1.user_id),
        correlation_id := p.2.2.2 }),
   toCreate.enum.map (fun p =>
      { id := procIdGen p.1, message_id := msgIdGen p.1, processing_status := "received" }),
   toCreate.enum.map (fun p =>
      { id := outIdGen p.1, message_id := msgIdGen p.1, correlation_id := p.2.2.2,
        event_type := "message_received", status := "pending", attempts := 0 }))

/-- `BatchIngestFastpathUseCase.execute` (lines 28-154): the pure row-building
bulk of the fast path; `accepted = len(prepared)` (line 154). -/
def executeFastpath (uuidGen msgIdGen procIdGen outIdGen : ℕ → String)
    (resolveUser : String → String) (existing : List String) (items : List FastItem) :
    BatchIngestResult :=
  let prepared := prepareItems uuidGen items
  let toCreate := dedupeBatch existing prepared
  let rows := buildBatchRows msgIdGen procIdGen outIdGen resolveUser toCreate
  { accepted := prepared.length, messageRows := rows.1,
    processingRows := rows.2.1, outboxRows := rows.2.2 }

theorem dedupe_fold_count (existing : List String)
    (prepared : List (ℕ × FastItem × String)) (kept : List (ℕ × FastItem × String))
    (seen : List String) (c : String)
    (hsub : ∀ x ∈ kept.map (fun e => e.2.2), x ∈ seen) :
    (((prepared.foldl
        (fun acc entry =>
          if entry.2.2 ∈ existing ∨ entry.2.2 ∈ acc.2 then acc
          else (acc.1 ++ [entry], acc.2 ++ [entry.2.2]))
        (kept, seen)).1).filter (fun e => e.2.2 = c)).length
      = (kept.filter (fun e => e.2.2 = c)).length
        + (if c ∈ prepared.map (fun e => e.2.2) ∧ c ∉ existing ∧ c ∉ seen then 1 else 0) := by
  induction prepared generalizing kept seen with
  | nil => simp
  | cons e rest ih =>
    rw [List.foldl_cons]
    by_cases hskip : e.2.2 ∈ existing ∨ e.2.2 ∈ seen
    · rw [if_pos hskip, ih kept seen hsub]
      by_cases hc : c = e.2.2
      · subst hc
        rw [if_neg (fun h => Or.elim hskip h.2.1 h.2.2),
          if_neg (fun h => Or.elim hskip h.2.1 h.2.2)]
      · have hmem : c ∈ ((e :: rest).map (fun e => e.2.2)) ↔ c ∈ rest.map (fun e => e.2.2) := by
          simp only [List.map_cons, List.mem_cons]
          exact or_iff_right hc
        congr 1
        exact if_congr (and_congr_left' hmem.symm) rfl rfl
    · push_neg at hskip
      rw [if_neg (by
        rintro (h | h)
        · exact hskip.1 h
        · exact hskip.2 h)]
      rw [ih (kept ++ [e]) (seen ++ [e.2.2]) (by
        intro x hx
        rw [List.map_append, List.mem_append] at hx
        rcases hx with hx | hx
        · exact List.mem_append_left _ (hsub x hx)
        · simp only [List.map_cons, List.map_nil, List.mem_singleton] at hx
          exact List.mem_append_right _ (by simp [hx]))]
      rw [List.filter_append, List.length_append]
      by_cases hc : c = e.2.2
      · subst hc
        have h1 : (([e] : List (ℕ × FastItem × String)).filter
            (fun x => x.2.2 = e.2.2)).length = 1 := by simp
        have h2 : e.2.2 ∉ seen ++ [e.2.2] → False := by simp
        rw [h1, if_neg (fun h => h2 h.2.2),
          if_pos ⟨by simp, hskip.1, hskip.2⟩]
      · have h1 : (([e] : List (ℕ × FastItem × String)).filter
            (fun x => x.2.2 = c)).length = 0 := by
          simp only [List.filter_cons, List.filter_nil]
          rw [if_neg (by simpa using fun h => hc h.symm)]
          simp
        have hseen : c ∉ seen ++ [e.2.2] ↔ c ∉ seen := by
          simp only [List.mem_append, List.mem_singleton]
          constructor
          · intro h hs
            exact h (Or.inl hs)
          · intro h hs
            rcases hs with hs | hs
            · exact h hs
            · exact hc hs
        have hmem : c ∈ ((e :: rest).map (fun x => x.2.2)) ↔ c ∈ rest.map (fun x => x.2.2) := by
          simp only [List.map_cons, List.mem_cons]
          exact or_iff_right hc
        rw [h1, Nat.add_zero]
        congr 1
        exact if_congr (and_congr hmem.symm (and_congr_right (fun _ => hseen))) rfl rfl

theorem dedupeBatch_count (existing : List String)
    (prepared : List (ℕ × FastItem × String)) (c : String) :
    ((dedupeBatch existing prepared).filter (fun e => e.2.2 = c)).length
      = if c ∈ prepared.map (fun e => e.2.2) ∧ c ∉ existing then 1 else 0 := by
  unfold dedupeBatch
  rw [dedupe_fold_count existing prepared [] [] c (by simp)]
  simp only [List.filter_nil, List.length_nil, Nat.zero_add]
  exact if_congr (by simp) rfl rfl

theorem length_filter_enumFrom_map {β : Type} (l : List (ℕ × FastItem × String)) (n : ℕ)
    (f : ℕ × (ℕ × FastItem × String) → β) (p : β → Bool)
    (q : (ℕ × FastItem × String) → Bool) (hpq : ∀ k e, p (f (k, e)) = q e) :
    (((l.enumFrom n).map f).filter p).length = (l.filter q).length := by
  induction l generalizing n with
  | nil => simp
  | cons e rest ih =>
    simp only [List.enumFrom, List.map_cons, List.filter_cons, hpq]
    by_cases hq : q e
    · rw [if_pos hq, if_pos hq]
      simp [ih]
    · rw [if_neg hq, if_neg hq]
      exact ih (n + 1)

theorem length_filter_enum_map {β : Type} (l : List (ℕ × FastItem × String))
    (f : ℕ × (ℕ × FastItem × String) → β) (p : β → Bool)
    (q : (ℕ × FastItem × String) → Bool) (hpq : ∀ k e, p (f (k, e)) = q e) :
    ((l.enum.map f).filter p).length = (l.filter q).length :=
  length_filter_enumFrom_map l 0 f p q hpq

/-- **C5.** The fast path creates message/processing/outbox rows only for the
first batch occurrence of each correlation id not already persisted, yet
`accepted` counts all input items; running the same batch twice (the second
run seeing the rows of the first) leaves exactly one message row and one
outbox row per new correlation id. -/
theorem fastpath_dedup_and_accepted (uuidGen msgIdGen procIdGen outIdGen : ℕ → String)
    (resolveUser : String → String) (existing : List String) (items : List FastItem) :
    (executeFastpath uuidGen msgIdGen procIdGen outIdGen resolveUser existing items).accepted
      = items.length
    ∧ (∀ c : String,
        (((executeFastpath uuidGen msgIdGen procIdGen outIdGen resolveUser existing
            items).messageRows.filter (fun r => r.correlation_id = c)).length
          = if c ∈ (prepareItems uuidGen items).map (fun e => e.2.2) ∧ c ∉ existing
            then 1 else 0)
        ∧ (((executeFastpath uuidGen msgIdGen procIdGen outIdGen resolveUser existing
            items).outboxRows.filter (fun r => r.correlation_id = c)).length
          = if c ∈ (prepareItems uuidGen items).map (fun e => e.2.2) ∧ c ∉ existing
            then 1 else 0))
    ∧ (executeFastpath uuidGen msgIdGen procIdGen outIdGen resolveUser existing
        items).processingRows.length
      = (executeFastpath uuidGen msgIdGen procIdGen outIdGen resolveUser existing
        items).messageRows.length
    ∧ (∀ c : String, c ∉ existing →
        c ∈ (prepareItems uuidGen items).map (fun e => e.2.2) →
        (((executeFastpath uuidGen msgIdGen procIdGen outIdGen resolveUser existing
              items).messageRows
            ++ (executeFastpath uuidGen msgIdGen procIdGen outIdGen resolveUser
              (existing ++ (executeFastpath uuidGen msgIdGen procIdGen outIdGen resolveUser
                existing items).messageRows.map (fun r => r.correlation_id))
              items).messageRows).filter (fun r => r.correlation_id = c)).length = 1
        ∧ (((executeFastpath uuidGen msgIdGen procIdGen outIdGen resolveUser existing
              items).outboxRows
            ++ (executeFastpath uuidGen msgIdGen procIdGen outIdGen resolveUser
              (existing ++ (executeFastpath uuidGen msgIdGen procIdGen outIdGen resolveUser
                existing items).messageRows.map (fun r => r.correlation_id))
              items).outboxRows).filter (fun r => r.correlation_id = c)).length = 1) := by
  have hmsg : ∀ existing' c,
      ((executeFastpath uuidGen msgIdGen procIdGen outIdGen resolveUser existing'
          items).messageRows.filter (fun r => r.correlation_id = c)).length
        = if c ∈ (prepareItems uuidGen items).map (fun e => e.2.2) ∧ c ∉ existing'
          then 1 else 0 := by
    intro existing' c
    show (((dedupeBatch existing' (prepareItems uuidGen items)).enum.map _).filter _).length = _
    rw [length_filter_enum_map _ _ _ (fun e => e.2.2 = c) (fun k e => rfl)]
    exact dedupeBatch_count existing' (prepareItems uuidGen items) c
  have hout : ∀ existing' c,
      ((executeFastpath uuidGen msgIdGen procIdGen outIdGen resolveUser existing'
          items).outboxRows.filter (fun r => r.correlation_id = c)).length
        = if c ∈ (prepareItems uuidGen items).map (fun e => e.2.2) ∧ c ∉ existing'
          then 1 else 0 := by
    intro existing' c
    show (((dedupeBatch existing' (prepareItems uuidGen items)).enum.map _).filter _).length = _
    rw [length_filter_enum_map _ _ _ (fun e => e.2.2 = c) (fun k e => rfl)]
    exact dedupeBatch_count existing' (prepareItems uuidGen items) c
  refine ⟨?_, fun c => ⟨hmsg existing c, hout existing c⟩, ?_, ?_⟩
  · show (prepareItems uuidGen items).length = items.length
    simp [prepareItems]
  · show ((dedupeBatch existing (prepareItems uuidGen items)).enum.map _).length
      = ((dedupeBatch existing (prepareItems uuidGen items)).enum.map _).length
    simp
  · intro c hex hprep
    have h1 := hmsg existing c
    rw [if_pos ⟨hprep, hex⟩] at h1
    have hcmem : c ∈ (executeFastpath uuidGen msgIdGen procIdGen outIdGen resolveUser
        existing items).messageRows.map (fun r => r.correlation_id) := by
      have hne : (executeFastpath uuidGen msgIdGen procIdGen outIdGen resolveUser
          existing items).messageRows.filter (fun r => r.correlation_id = c) ≠ [] := by
        intro hnil
        rw [hnil] at h1
        simp at h1
      obtain ⟨r, hr⟩ := List.exists_mem_of_ne_nil _ hne
      have := List.mem_filter.mp hr
      exact List.mem_map.mpr ⟨r, this.1, by simpa using this.2⟩
    have h2 := hmsg (existing ++ (executeFastpath uuidGen msgIdGen procIdGen outIdGen
      resolveUser existing items).messageRows.map (fun r => r.correlation_id)) c
    rw [if_neg (fun h => h.2 (List.mem_append_right _ hcmem))] at h2
    have h3 := hout existing c
    rw [if_pos ⟨hprep, hex⟩] at h3
    have h4 := hout (existing ++ (executeFastpath uuidGen msgIdGen procIdGen outIdGen
      resolveUser existing items).messageRows.map (fun r => r.correlation_id)) c
    rw [if_neg (fun h => h.2 (List.mem_append_right _ hcmem))] at h4
    constructor
    · rw [List.filter_append, List.length_append, h1, h2]
    · rw [List.filter_append, List.length_append, h3, h4]

/-- Concrete batch for the C5 witness. -/
def fastItems1 : List FastItem := [{ correlation_id := some "cid-1", user_id := "user_abc123" }]

def fastRun1 : BatchIngestResult :=
  executeFastpath (fun _ => "g") (fun _ => "m") (fun _ => "p") (fun _ => "o")
    (fun u => u) [] fastItems1

def fastRun2 : BatchIngestResult :=
  executeFastpath (fun _ => "g") (fun _ => "m") (fun _ => "p") (fun _ => "o")
    (fun u => u) ([] ++ fastRun1.messageRows.map (fun r => r.correlation_id)) fastItems1

theorem fastpath_dedup_and_accepted_witness :
    ("cid-1" ∉ ([] : List String))
    ∧ ("cid-1" ∈ (prepareItems (fun _ => "g") fastItems1).map (fun e => e.2.2))
    ∧ ((fastRun1.messageRows ++ fastRun2.messageRows).filter
        (fun r => r.correlation_id = "cid-1")).length = 1 := by
  refine ⟨by decide, by decide, ?_⟩
  exact ((fastpath_dedup_and_accepted (fun _ => "g") (fun _ => "m") (fun _ => "p")
    (fun _ => "o") (fun u => u) [] fastItems1).2.2.2 "cid-1" (by decide) (by decide)).1

/-! ### C6-C8: outbox repository (`message_repository.py`) and dispatcher
(`outbox_publisher.py`)

The database table of `OutboxEvent` rows is modelled as a list of records; a
repository call returns the updated table (the Python session mutates ORM rows
in place and the caller commits; `claim_outbox_events` performs its select and
updates in one session/transaction, which the single Lean function models). -/

structure OutboxEvent where
  id : String
  message_id : String
  correlation_id : String
  event_type : String
  status : String
  attempts : ℤ
  last_error : Option String
  available_at : ℤ
  locked_at : Option ℤ
  locked_by : Option String
  created_at : ℤ
  updated_at : ℤ
deriving Repr, DecidableEq

/-- The WHERE clause of `claim_outbox_events` (lines 342-353): status in
`{pending, failed}`, `available_at ≤ now`, lock absent or expired, and an
optional event-type restriction (skipped for `None` and for the empty list,
matching Python's `if event_types:`). -/
def eligibleForClaim (now cutoff : ℤ) (types : Option (List String))
    (e : OutboxEvent) : Bool :=
  decide (e.status = "pending" ∨ e.status = "failed")
    && decide (e.available_at ≤ now)
    && (match e.locked_at with
        | none => true
        | some t => decide (t < cutoff))
    && (match types with
        | none => true
        | some l => if l = [] then true else decide (e.event_type ∈ l))

/-- The per-row update of `claim_outbox_events` (lines 360-364);
`int(item.attempts or 0) + 1` equals `attempts + 1` for integer `attempts`. -/
def claimUpdate (now : ℤ) (worker : String) (e : OutboxEvent) : OutboxEvent :=
  { e with locked_at := some now, locked_by := some worker, attempts := e.attempts + 1, updated_at := now }

/-- `claim_outbox_events` (lines 333-365): select eligible rows ordered by
`created_at` ascending, up to `lim`, then lock them and bump `attempts` in the
same transaction.  Returns `(returned rows, updated table)`. -/
def claimOutboxEvents (db : List OutboxEvent) (now cutoff : ℤ) (worker : String)
    (lim : ℕ) (types : Option (List String)) : List OutboxEvent × List OutboxEvent :=
  let selected : List OutboxEvent :=
    (List.insertionSort (fun a b : OutboxEvent => a.created_at ≤ b.created_at)
      (db.filter (eligibleForClaim now cutoff types))).take lim
  let claimedIds : List String := selected.map (fun e => e.id)
  (selected.map (claimUpdate now worker),
   db.map (fun e => if e.id ∈ claimedIds then claimUpdate now worker e else e))

/-- `mark_outbox_published` (lines 367-375). -/
def markOutboxPublished (db : List OutboxEvent) (eventId : String) (now : ℤ) :
    List OutboxEvent :=
  db.map (fun e =>
    if e.id = eventId then
      { e with status := "published", last_error := none, locked_at := none, locked_by := none, updated_at := now }
    else e)

/-- `mark_outbox_failed` (lines 377-386). -/
def markOutboxFailed (db : List OutboxEvent) (eventId : String)
    (now availableAt : ℤ) (lastError : String) : List OutboxEvent :=
  db.map (fun e =>
    if e.id = eventId then
      { e with status := "failed", last_error := some (String.mk (lastError.toList.take 1000)), available_at := availableAt, locked_at := none, locked_by := none, updated_at := now }
    else e)

/-- `_compute_backoff_seconds` (`outbox_publisher.py`, lines 32-39). -/
def computeBackoffSeconds (attempts : ℤ) : ℤ :=
  if attempts ≤ 1 then 1
  else if attempts = 2 then 5
  else if attempts = 3 then 15
  else 60

/-- `int(event.attempts or 1)` (lines 266, 325): `0` and `None` coerce to 1. -/
def attemptsOrOne (attempts : ℤ) : ℤ := if attempts = 0 then 1 else attempts

/-- The failure path of the dispatcher for one event (lines 266-272 and
324-331): mark the row failed with truncated error, clear the lock, and make
it available again after the backoff. -/
def handlePublishFailure (db : List OutboxEvent) (ev : OutboxEvent)
    (processedAt : ℤ) (lastError : String) : List OutboxEvent :=
  markOutboxFailed db ev.id processedAt
    (processedAt + computeBackoffSeconds (attemptsOrOne ev.attempts)) lastError

/-- The dispatcher configuration bits that steer the status-update phase. -/
structure DispatchConfig where
  bypassRabbit : Bool
  bypassElastic : Bool
deriving Repr, DecidableEq

/-- The audit status-update phase of `run_worker` (lines 239-274): with
`bypass_elastic_for_tests` every claimed audit event is marked published
without any Elasticsearch call; otherwise an event is marked published exactly
when the bulk response reported it successful (`succeededIds`). -/
def processAuditEvents (cfg : DispatchConfig) (db : List OutboxEvent)
    (events : List OutboxEvent) (succeededIds : List String) (now : ℤ) :
    List OutboxEvent :=
  if cfg.bypassElastic then
    events.foldl (fun d e => markOutboxPublished d e.id now) db
  else
    events.foldl
      (fun d e =>
        if e.id ∈ succeededIds then markOutboxPublished d e.id now
        else handlePublishFailure d e now
          "Falha ao indexar log de auditoria no Elasticsearch.")
      db

/-- The broker status-update phase of `run_worker` for one event
(lines 283-343): `published = False` under `bypass_rabbit_for_tests`,
otherwise the broker result. -/
def processRabbitEvent (cfg : DispatchConfig) (db : List OutboxEvent)
    (e : OutboxEvent) (pubOk : Bool) (now : ℤ) : List OutboxEvent :=
  let published := if cfg.bypassRabbit then false else pubOk
  if published then markOutboxPublished db e.id now
  else handlePublishFailure db e now "Falha ao publicar evento no RabbitMQ."

/-- One status-update pass of the dispatcher over the claimed events
(lines 229-343): audit events through the bulk path, the rest through the
broker path.  `succeededIds` is the set of audit event ids the bulk response
reported successful; `pubOk` is the broker publish result per event id. -/
def dispatchTick (cfg : DispatchConfig) (db : List OutboxEvent)
    (events : List OutboxEvent) (succeededIds : List String)
    (pubOk : String → Bool) (now : ℤ) : List OutboxEvent :=
  let auditEvents := events.filter (fun e => e.event_type = "http_audit_log")
  let rabbitEvents := events.filter (fun e => e.event_type ≠ "http_audit_log")
  let db1 := processAuditEvents cfg db auditEvents succeededIds now
  rabbitEvents.foldl (fun d e => processRabbitEvent cfg d e (pubOk e.id) now) db1

theorem eligible_spec (now cutoff : ℤ) (types : Option (List String)) (e : OutboxEvent)
    (h : eligibleForClaim now cutoff types e = true) :
    (e.status = "pending" ∨ e.status = "failed") ∧ e.available_at ≤ now
    ∧ (e.locked_at = none ∨ ∃ t, e.locked_at = some t ∧ t < cutoff) := by
  unfold eligibleForClaim at h
  cases hl : e.locked_at with
  | none =>
    rw [hl] at h
    simp only [Bool.and_eq_true, decide_eq_true_eq] at h
    exact ⟨h.1.1.1, h.1.1.2, Or.inl rfl⟩
  | some t =>
    rw [hl] at h
    simp only [Bool.and_eq_true, decide_eq_true_eq] at h
    exact ⟨h.1.1.1, h.1.1.2, Or.inr ⟨t, rfl, h.1.2⟩⟩

/-- **C6.** `claim_outbox_events` returns only pending/failed events that are
due (`available_at ≤ now`) and unlocked or expired-locked, at most `limit` of
them in ascending `created_at` order, and — in the same transaction — sets
`locked_at = now`, `locked_by = worker_id` and increments `attempts` on every
returned row (both on the returned objects and in the updated table). -/
theorem claim_outbox_events_spec (db : List OutboxEvent) (now cutoff : ℤ)
    (worker : String) (lim : ℕ) (types : Option (List String)) :
    (claimOutboxEvents db now cutoff worker lim types).1.length ≤ lim
    ∧ List.Sorted (fun a b : OutboxEvent => a.created_at ≤ b.created_at)
        (claimOutboxEvents db now cutoff worker lim types).1
    ∧ (∀ r ∈ (claimOutboxEvents db now cutoff worker lim types).1,
        (r.status = "pending" ∨ r.status = "failed")
        ∧ r.available_at ≤ now
        ∧ r.locked_at = some now
        ∧ r.locked_by = some worker
        ∧ ∃ e ∈ db, e.id = r.id
            ∧ (e.locked_at = none ∨ ∃ t, e.locked_at = some t ∧ t < cutoff)
            ∧ r.attempts = e.attempts + 1 ∧ r.status = e.status
            ∧ r.created_at = e.created_at)
    ∧ (∀ e' ∈ (claimOutboxEvents db now cutoff worker lim types).2,
        e'.id ∈ (claimOutboxEvents db now cutoff worker lim types).1.map (fun r => r.id) →
        e'.locked_at = some now ∧ e'.locked_by = some worker) := by
  letI : IsTotal OutboxEvent (fun a b => a.created_at ≤ b.created_at) :=
    ⟨fun a b => le_total _ _⟩
  letI : IsTrans OutboxEvent (fun a b => a.created_at ≤ b.created_at) :=
    ⟨fun a b c hab hbc => le_trans hab hbc⟩
  have hsel : ∀ s ∈ (List.insertionSort
      (fun a b : OutboxEvent => a.created_at ≤ b.created_at)
      (db.filter (eligibleForClaim now cutoff types))).take lim,
      s ∈ db ∧ eligibleForClaim now cutoff types s = true := by
    intro s hs
    have hs1 := List.take_subset lim _ hs
    have hs2 := (List.perm_insertionSort
      (fun a b : OutboxEvent => a.created_at ≤ b.created_at)
      (db.filter (eligibleForClaim now cutoff types))).mem_iff.mp hs1
    exact List.mem_filter.mp hs2
  refine ⟨?_, ?_, ?_, ?_⟩
  · show ((_ : List OutboxEvent).map _).length ≤ lim
    rw [List.length_map]
    exact List.length_take_le lim _
  · show List.Sorted _ ((_ : List OutboxEvent).map _)
    have hs := List.sorted_insertionSort
      (fun a b : OutboxEvent => a.created_at ≤ b.created_at)
      (db.filter (eligibleForClaim now cutoff types))
    have hst := hs.sublist (List.take_sublist lim _)
    exact List.pairwise_map.mpr hst
  · intro r hr
    obtain ⟨s, hs, hrs⟩ := List.mem_map.mp hr
    obtain ⟨hsdb, helig⟩ := hsel s hs
    obtain ⟨h1, h2, h3⟩ := eligible_spec now cutoff types s helig
    subst hrs
    exact ⟨h1, h2, rfl, rfl, s, hsdb, rfl, h3, rfl, rfl, rfl⟩
  · intro e' he' hid
    obtain ⟨e, hedb, hee'⟩ := List.mem_map.mp he'
    have hids : (claimOutboxEvents db now cutoff worker lim types).1.map (fun r => r.id)
        = ((List.insertionSort (fun a b : OutboxEvent => a.created_at ≤ b.created_at)
            (db.filter (eligibleForClaim now cutoff types))).take lim).map
          (fun s => s.id) := by
      show (((_ : List OutboxEvent).map _).map _) = _
      rw [List.map_map]
      rfl
    rw [hids] at hid
    by_cases hc : e.id ∈ ((List.insertionSort
        (fun a b : OutboxEvent => a.created_at ≤ b.created_at)
        (db.filter (eligibleForClaim now cutoff types))).take lim).map (fun s => s.id)
    · rw [if_pos hc] at hee'
      subst hee'
      exact ⟨rfl, rfl⟩
    · rw [if_neg hc] at hee'
      subst hee'
      exact absurd hid hc

/-- A concrete claimable outbox event. -/
def evPending : OutboxEvent :=
  { id := "e1", message_id := "m1", correlation_id := "c1",
    event_type := "message_received", status := "pending", attempts := 0,
    last_error := none, available_at := 50, locked_at := none, locked_by := none,
    created_at := 10, updated_at := 10 }

theorem claim_outbox_events_spec_witness :
    (claimUpdate 100 "w1" evPending ∈ (claimOutboxEvents [evPending] 100 40 "w1" 5 none).1)
    ∧ (claimUpdate 100 "w1" evPending).locked_at = some 100
    ∧ (claimUpdate 100 "w1" evPending).locked_by = some "w1"
    ∧ (claimUpdate 100 "w1" evPending).attempts = evPending.attempts + 1 := by
  have hmem : claimUpdate 100 "w1" evPending
      ∈ (claimOutboxEvents [evPending] 100 40 "w1" 5 none).1 := by decide
  have h := (claim_outbox_events_spec [evPending] 100 40 "w1" 5 none).2.2.1 _ hmem
  exact ⟨hmem, h.2.2.1, h.2.2.2.1, by decide⟩

/-- **C7.** When the dispatcher fails to publish a claimed event, the row is
set to `failed` with a 1000-character-truncated error, its lock is cleared,
and `available_at` becomes `now + backoff(attempts)` with backoff 1, 5, 15 and
60 seconds for attempts 1, 2, 3 and ≥ 4. -/
theorem outbox_failure_backoff (db : List OutboxEvent) (ev : OutboxEvent)
    (now : ℤ) (err : String) :
    (∀ e' ∈ handlePublishFailure db ev now err, e'.id = ev.id →
      e'.status = "failed"
      ∧ e'.last_error = some (String.mk (err.toList.take 1000))
      ∧ e'.locked_at = none ∧ e'.locked_by = none
      ∧ e'.available_at = now + computeBackoffSeconds (attemptsOrOne ev.attempts))
    ∧ computeBackoffSeconds 1 = 1 ∧ computeBackoffSeconds 2 = 5
    ∧ computeBackoffSeconds 3 = 15
    ∧ (∀ a : ℤ, 4 ≤ a → computeBackoffSeconds a = 60) := by
  refine ⟨?_, by decide, by decide, by decide, ?_⟩
  · intro e' he' hid
    simp only [handlePublishFailure, markOutboxFailed] at he'
    obtain ⟨e, hedb, hee'⟩ := List.mem_map.mp he'
    by_cases hc : e.id = ev.id
    · rw [if_pos hc] at hee'
      subst hee'
      exact ⟨rfl, rfl, rfl, rfl, rfl⟩
    · rw [if_neg hc] at hee'
      subst hee'
      exact absurd hid hc
  · intro a ha
    unfold computeBackoffSeconds
    rw [if_neg (by omega), if_neg (by omega), if_neg (by omega)]

theorem outbox_failure_backoff_witness :
    ({ evPending with status := "failed", last_error := some (String.mk ("boom".toList.take 1000)), available_at := 201, locked_at := none, locked_by := none, updated_at := 200 }
        ∈ handlePublishFailure [evPending] evPending 200 "boom")
    ∧ ({ evPending with status := "failed", last_error := some (String.mk ("boom".toList.take 1000)), available_at := 201, locked_at := none, locked_by := none, updated_at := 200 } : OutboxEvent).id
        = evPending.id
    ∧ ({ evPending with status := "failed", last_error := some (String.mk ("boom".toList.take 1000)), available_at := 201, locked_at := none, locked_by := none, updated_at := 200 } : OutboxEvent).status
        = "failed" := by
  have hmem : ({ evPending with status := "failed", last_error := some (String.mk ("boom".toList.take 1000)), available_at := 201, locked_at := none, locked_by := none, updated_at := 200 } : OutboxEvent)
      ∈ handlePublishFailure [evPending] evPending 200 "boom" := by decide
  have h := (outbox_failure_backoff [evPending] evPending 200 "boom").1 _ hmem (by decide)
  exact ⟨hmem, by decide, h.1⟩

/-! ### C8: dispatcher publish safety -/

/-- An event may carry status `published` only with a reason: it was already
published, the bulk response reported it successful, or the broker publish
returned `True` for it. -/
def PublishJustified (db0 : List OutboxEvent) (succ : List String)
    (pubOk : String → Bool) (x : OutboxEvent) : Prop :=
  (∃ e ∈ db0, e.id = x.id ∧ e.status = "published")
  ∨ x.id ∈ succ ∨ pubOk x.id = true

def SafeDb (db0 : List OutboxEvent) (succ : List String) (pubOk : String → Bool)
    (d : List OutboxEvent) : Prop :=
  ∀ x ∈ d, x.status = "published" → PublishJustified db0 succ pubOk x

theorem safe_markPublished (db0 : List OutboxEvent) (succ : List String)
    (pubOk : String → Bool) (d : List OutboxEvent) (eventId : String) (now : ℤ)
    (hd : SafeDb db0 succ pubOk d) (hj : eventId ∈ succ ∨ pubOk eventId = true) :
    SafeDb db0 succ pubOk (markOutboxPublished d eventId now) := by
  intro x hx hpub
  obtain ⟨y, hy, hyx⟩ := List.mem_map.mp hx
  by_cases hc : y.id = eventId
  · rw [if_pos hc] at hyx
    subst hyx
    right
    show y.id ∈ succ ∨ pubOk y.id = true
    rw [hc]
    exact hj
  · rw [if_neg hc] at hyx
    subst hyx
    exact hd y hy hpub

theorem safe_markFailed (db0 : List OutboxEvent) (succ : List String)
    (pubOk : String → Bool) (d : List OutboxEvent) (eventId : String)
    (now avail : ℤ) (err : String) (hd : SafeDb db0 succ pubOk d) :
    SafeDb db0 succ pubOk (markOutboxFailed d eventId now avail err) := by
  intro x hx hpub
  obtain ⟨y, hy, hyx⟩ := List.mem_map.mp hx
  by_cases hc : y.id = eventId
  · rw [if_pos hc] at hyx
    subst hyx
    have hne : ¬ (("failed" : String) = "published") := by decide
    exact absurd hpub hne
  · rw [if_neg hc] at hyx
    subst hyx
    exact hd y hy hpub

theorem safe_auditFold (db0 : List OutboxEvent) (succ : List String)
    (pubOk : String → Bool) (now : ℤ) (events : List OutboxEvent)
    (d : List OutboxEvent) (hd : SafeDb db0 succ pubOk d) :
    SafeDb db0 succ pubOk
      (events.foldl
        (fun d e =>
          if e.id ∈ succ then markOutboxPublished d e.id now
          else handlePublishFailure d e now
            "Falha ao indexar log de auditoria no Elasticsearch.")
        d) := by
  induction events generalizing d with
  | nil => exact hd
  | cons e rest ih =>
    rw [List.foldl_cons]
    apply ih
    by_cases hc : e.id ∈ succ
    · rw [if_pos hc]
      exact safe_markPublished db0 succ pubOk d e.id now hd (Or.inl hc)
    · rw [if_neg hc]
      exact safe_markFailed db0 succ pubOk d e.id now _ _ hd

theorem safe_rabbitFold (cfg : DispatchConfig) (db0 : List OutboxEvent)
    (succ : List String) (pubOk : String → Bool) (now : ℤ)
    (events : List OutboxEvent) (d : List OutboxEvent)
    (hd : SafeDb db0 succ pubOk d) :
    SafeDb db0 succ pubOk
      (events.foldl (fun d e => processRabbitEvent cfg d e (pubOk e.id) now) d) := by
  induction events generalizing d with
  | nil => exact hd
  | cons e rest ih =>
    rw [List.foldl_cons]
    apply ih
    unfold processRabbitEvent
    by_cases hb : cfg.bypassRabbit
    · rw [if_pos hb]
      show SafeDb db0 succ pubOk (if false = true then _ else _)
      rw [if_neg (by simp)]
      exact safe_markFailed db0 succ pubOk d e.id now _ _ hd
    · rw [if_neg hb]
      by_cases hp : pubOk e.id
      · rw [if_pos hp]
        exact safe_markPublished db0 succ pubOk d e.id now hd (Or.inr hp)
      · rw [if_neg hp]
        exact safe_markFailed db0 succ pubOk d e.id now _ _ hd

/-- **C8 counterexample.** With `bypass_elastic_for_tests` enabled the
dispatcher marks claimed audit events `published` without any Elasticsearch
call: no per-event success was reported (`succeededIds = []`, broker returns
`False`), yet the pending audit event ends up `published`. -/
def evAudit : OutboxEvent :=
  { id := "a1", message_id := "m1", correlation_id := "c1",
    event_type := "http_audit_log", status := "pending", attempts := 1,
    last_error := none, available_at := 0, locked_at := some 90,
    locked_by := some "w1", created_at := 0, updated_at := 90 }

theorem dispatcher_publishes_without_success_under_bypass :
    (dispatchTick { bypassRabbit := false, bypassElastic := true }
        [evAudit] [evAudit] [] (fun _ => false) 100).map (fun e => e.status)
      = ["published"]
    ∧ evAudit.status = "pending" :=
  ⟨by decide, rfl⟩

/-- **C8 (amended).** Whenever `bypass_elastic_for_tests` is off, no event is
marked `published` unless it already was, the bulk index reported it
successful, or the broker publish returned success for it.  (Under the
`bypass_elastic_for_tests` test configuration, audit events are marked
published without any indexing — see the counterexample.) -/
theorem dispatcher_publish_safety (cfg : DispatchConfig) (db : List OutboxEvent)
    (events : List OutboxEvent) (succeededIds : List String)
    (pubOk : String → Bool) (now : ℤ) (hcfg : cfg.bypassElastic = false) :
    ∀ e' ∈ dispatchTick cfg db events succeededIds pubOk now,
      e'.status = "published" →
      (∃ e ∈ db, e.id = e'.id ∧ e.status = "published")
      ∨ e'.id ∈ succeededIds ∨ pubOk e'.id = true := by
  intro e' he' hpub
  have hbase : SafeDb db succeededIds pubOk db := fun x hx hp => Or.inl ⟨x, hx, rfl, hp⟩
  have hdb1 : SafeDb db succeededIds pubOk
      (processAuditEvents cfg db (events.filter (fun e => e.event_type = "http_audit_log"))
        succeededIds now) := by
    unfold processAuditEvents
    rw [if_neg (by simp [hcfg])]
    exact safe_auditFold db succeededIds pubOk now _ db hbase
  have hfinal := safe_rabbitFold cfg db succeededIds pubOk now
    (events.filter (fun e => e.event_type ≠ "http_audit_log")) _ hdb1
  exact hfinal e' he' hpub

theorem dispatcher_publish_safety_witness :
    (({ bypassRabbit := false, bypassElastic := false } : DispatchConfig).bypassElastic
      = false)
    ∧ ({ evAudit with status := "published", last_error := none, locked_at := none, locked_by := none, updated_at := 100 }
        ∈ dispatchTick { bypassRabbit := false, bypassElastic := false }
            [evAudit] [evAudit] ["a1"] (fun _ => false) 100)
    ∧ ((∃ e ∈ [evAudit],
          e.id = ({ evAudit with status := "published", last_error := none, locked_at := none, locked_by := none, updated_at := 100 } : OutboxEvent).id
          ∧ e.status = "published")
        ∨ ({ evAudit with status := "published", last_error := none, locked_at := none, locked_by := none, updated_at := 100 } : OutboxEvent).id ∈ ["a1"]
        ∨ (fun (_ : String) => false)
            ({ evAudit with status := "published", last_error := none, locked_at := none, locked_by := none, updated_at := 100 } : OutboxEvent).id = true) := by
  refine ⟨rfl, by decide, ?_⟩
  exact dispatcher_publish_safety { bypassRabbit := false, bypassElastic := false }
    [evAudit] [evAudit] ["a1"] (fun _ => false) 100 rfl _ (by decide) (by decide)

end Feed
